import Mathlib

/-!
Verification development for the timesheet application
(`lib/parser.js`, `lib/allocator.js`, `lib/payroll.js`).

The JavaScript modules are shallowly embedded:
* JS numbers are modelled as `ℚ` (all values occurring in this code base are
  decimal fractions, on which JS double arithmetic is exact in the ranges used);
* `Math.round` is round-half-up (`⌊x + 1/2⌋`), as in JS for the values at hand;
* nullable values are `Option`s; JS truthiness of strings/numbers is modelled
  explicitly (`""`, `0` and `null`/`undefined` are falsy);
* the regular-expression searches of `parser.js` are embedded as executable
  scanners with leftmost-match semantics and explicit bounded backtracking,
  mirroring each pattern of the source;
* dates are embedded as civil dates / epoch day numbers; conversions assume the
  deployment situation in which the process-local calendar date agrees with the
  rendered ISO date (the code mixes local and UTC accessors; this is the
  coherent reading and the one the specification describes);
* the asynchronous travel-time lookup of `allocator.js` is a function
  parameter (`Fetcher`); a thrown request error is `Except.error ()`.
-/

set_option maxRecDepth 20000

/- Batteries marks the arithmetic of `Rat` `@[irreducible]`, which blocks
`decide` on concrete rational values; restore the definitional behaviour
locally so concrete runs of the embedded code can be evaluated. -/
set_option allowUnsafeReducibility true
attribute [local semireducible] Rat.add Rat.mul Rat.sub Rat.div Rat.inv

namespace Timesheet

/-! ### JS-number primitives -/

/-- JS `Math.round`: round half toward positive infinity. -/
def jsRound (x : ℚ) : ℤ := ⌊x + 1/2⌋

/-- `lib/parser.js` and `lib/allocator.js` `roundToNearestQuarterMinutes`:
`Math.round(minutes / 15) * 15`. -/
def roundToNearestQuarterMinutes (m : ℤ) : ℤ := jsRound ((m : ℚ) / 15) * 15

/-- JS truthiness of a nullable number: `null`/`undefined` and `0` are falsy. -/
def qTruthy : Option ℚ → Bool
  | none => false
  | some v => v ≠ 0

/-- JS truthiness of a nullable string: `null`/`undefined` and `""` are falsy. -/
def sTruthy : Option String → Bool
  | none => false
  | some s => s ≠ ""

/-! ### Character classes (JS regex semantics) -/

def jsIsDigit (c : Char) : Bool := '0' ≤ c && c ≤ '9'

/-- JS `\w`: ASCII letters, digits, underscore. -/
def jsIsWordChar (c : Char) : Bool := c.isAlpha || jsIsDigit c || c = '_'

/-- JS `\s` (the whitespace characters occurring in this code's inputs). -/
def jsIsSpace (c : Char) : Bool :=
  c = ' ' || c = '\t' || c = '\n' || c = '\r' || c = '\x0b' || c = '\x0c'

/-- Case folding as used by the `/i` regex flag and `toLowerCase()`
(ASCII plus the accented letter appearing in the worker list). -/
def jsLower (c : Char) : Char := if c = 'É' then 'é' else c.toLower

def jsLowerStr (s : List Char) : List Char := s.map jsLower

def digitVal (c : Char) : ℕ := c.toNat - '0'.toNat

/-- JS `parseInt` on a digit string. -/
def digitsToNat (l : List Char) : ℕ := l.foldl (fun a c => a * 10 + digitVal c) 0

/-- JS `trim()`. -/
def jsTrim (s : String) : String :=
  String.mk (((s.data.dropWhile jsIsSpace).reverse.dropWhile jsIsSpace).reverse)

/-- JS `String(n).padStart(2, "0")` for a short string. -/
def padStart2 (s : String) : String :=
  if s.length = 0 then "00" else if s.length = 1 then "0" ++ s else s

def pad2 (n : ℕ) : String := padStart2 (toString n)

/-! ### Calendar arithmetic

Epoch day numbers (days since 1970-01-01) with civil conversions
(standard era-based algorithms, floor division). `new Date(...).getDay()`
is `(dayNumber + 4) mod 7` (1970-01-01 was a Thursday). -/

def daysFromCivil (y m d : ℤ) : ℤ :=
  let y1 := if m ≤ 2 then y - 1 else y
  let era := Int.ediv y1 400
  let yoe := y1 - era * 400
  let doy := Int.ediv (153 * (Int.emod (m + 9) 12) + 2) 5 + d - 1
  let doe := yoe * 365 + Int.ediv yoe 4 - Int.ediv yoe 100 + doy
  era * 146097 + doe - 719468

def civilFromDays (z0 : ℤ) : ℤ × ℤ × ℤ :=
  let z := z0 + 719468
  let era := Int.ediv z 146097
  let doe := z - era * 146097
  let yoe := Int.ediv (doe - Int.ediv doe 1460 + Int.ediv doe 36524 - Int.ediv doe 146096) 365
  let y0 := yoe + era * 400
  let doy := doe - (365 * yoe + Int.ediv yoe 4 - Int.ediv yoe 100)
  let mp := Int.ediv (5 * doy + 2) 153
  let d := doy - Int.ediv (153 * mp + 2) 5 + 1
  let m := mp + (if mp < 10 then 3 else -9)
  (if m ≤ 2 then y0 + 1 else y0, m, d)

/-- Weekday of an epoch day number, `0 = Sunday .. 6 = Saturday`
(JS `Date.prototype.getDay`). -/
def weekdayOfDay (z : ℤ) : ℤ := Int.emod (z + 4) 7

def intDigits (z : ℤ) : String := toString z

def pad4 (z : ℤ) : String :=
  let s := intDigits z
  if s.length ≥ 4 then s else (String.mk (List.replicate (4 - s.length) '0')) ++ s

/-- Render an epoch day number as the `YYYY-MM-DD` part of `toISOString()`. -/
def dayToIso (z : ℤ) : String :=
  let c := civilFromDays z
  pad4 c.1 ++ "-" ++ pad2 c.2.1.toNat ++ "-" ++ pad2 c.2.2.toNat

def yearOfDay (z : ℤ) : ℤ := (civilFromDays z).1

def isLeapYear (y : ℤ) : Bool := (Int.emod y 4 = 0 && Int.emod y 100 ≠ 0) || Int.emod y 400 = 0

def daysInMonth (y m : ℤ) : ℤ :=
  if m = 2 then (if isLeapYear y then 29 else 28)
  else if m = 4 ∨ m = 6 ∨ m = 9 ∨ m = 11 then 30 else 31

/-- Recognizer for the date-only ISO form `YYYY-MM-DD` used throughout the
pipeline (`date-fns` `parseISO` accepts this form and rejects the malformed
strings relevant here, yielding an invalid date). -/
def parseIsoDate (s : String) : Option (ℤ × ℤ × ℤ) :=
  match s.data with
  | [y1, y2, y3, y4, c1, m1, m2, c2, d1, d2] =>
      if c1 = '-' && c2 = '-' && ([y1, y2, y3, y4, m1, m2, d1, d2].all jsIsDigit) then
        let y : ℤ := (digitsToNat [y1, y2, y3, y4] : ℤ)
        let m : ℤ := (digitsToNat [m1, m2] : ℤ)
        let d : ℤ := (digitsToNat [d1, d2] : ℤ)
        if 1 ≤ m ∧ m ≤ 12 ∧ 1 ≤ d ∧ d ≤ daysInMonth y m then some (y, m, d) else none
      else none
  | _ => none

/-! ### Regex scanning framework

Each embedded pattern is a `step` function attempting a match at one position;
`scanFrom` tries positions left to right (leftmost-match), carrying the
previous character for word-boundary tests. Greedy quantifiers with
backtracking are embedded by trying candidate lengths longest-first
(`pick`). -/

/-- First success of `f` over `l`, in order. -/
def pick {β α : Type} (l : List β) (f : β → Option α) : Option α :=
  match l with
  | [] => none
  | b :: r =>
      match f b with
      | some a => some a
      | none => pick r f

/-- Leftmost-match search: try `step` at each position, earliest first.
The first argument of `step` is the character preceding the position. -/
def scanFrom {α : Type} (step : Option Char → List Char → Option α) :
    Option Char → List Char → Option α
  | prev, [] => step prev []
  | prev, c :: rest =>
      match step prev (c :: rest) with
      | some r => some r
      | none => scanFrom step (some c) rest

/-- JS `\b` between two (possibly absent) characters. -/
def isBoundary (a b : Option Char) : Bool :=
  (match a with | none => false | some c => jsIsWordChar c) ≠
  (match b with | none => false | some c => jsIsWordChar c)

/-- Case-insensitive literal match at the head; returns the rest. -/
def ciMatchAt (pat s : List Char) : Option (List Char) :=
  match pat, s with
  | [], rest => some rest
  | p :: ps, c :: cs => if jsLower c = jsLower p then ciMatchAt ps cs else none
  | _ :: _, [] => none

/-- Take exactly `k` characters satisfying `p`. -/
def exactTake (p : Char → Bool) (k : ℕ) (s : List Char) : Option (List Char × List Char) :=
  if (s.take k).length = k && (s.take k).all p then some (s.take k, s.drop k) else none

/-- Split into the maximal prefix satisfying `p` and the rest. -/
def takeRun (p : Char → Bool) (s : List Char) : List Char × List Char :=
  (s.takeWhile p, s.dropWhile p)

/-- Candidate lengths `n, n-1, …, lo` (greedy backtracking order),
where `n` is the run length capped at `hi`. -/
def greedyLens (p : Char → Bool) (lo hi : ℕ) (s : List Char) : List ℕ :=
  let n := min hi (s.takeWhile p).length
  if n < lo then [] else (List.range (n - lo + 1)).map (fun i => n - i)

/-- `\b`-delimited case-insensitive word match of `pat` at this position
(used for the worker, weekday and street-keyword alternations). -/
def wordMatchStep (pat : List Char) (prev : Option Char) (s : List Char) : Option Unit :=
  match ciMatchAt pat s with
  | none => none
  | some rest =>
      if isBoundary prev s.head? && isBoundary ((s.take pat.length).getLast?) rest.head?
      then some () else none

/-! ### `lib/parser.js` line classifiers -/

/-- `lib/parser.js` `WORKERS`. -/
def WORKERS : List String := ["Jose", "José", "Damian", "Chris", "Myer"]

/-- `lib/parser.js` `findWorker`: first worker whose name occurs
word-bounded, case-insensitively. -/
def findWorker (line : String) : Option String :=
  pick WORKERS fun w =>
    if (scanFrom (wordMatchStep w.data) none line.data).isSome then some w else none

/-- `lib/parser.js` `WEEKDAYS` (object keyed by full and 3-letter names). -/
def WEEKDAYS : List (String × ℕ) :=
  [("sunday", 0), ("monday", 1), ("tuesday", 2), ("wednesday", 3), ("thursday", 4),
   ("friday", 5), ("saturday", 6),
   ("sun", 0), ("mon", 1), ("tue", 2), ("wed", 3), ("thu", 4), ("fri", 5), ("sat", 6)]

/-- `lib/parser.js` `isoForWeekday`, at the level of epoch day numbers:
`today - diff` where `diff = (today.getDay() - target) mod 7`. -/
def isoForWeekdayDay (today : ℤ) (name : String) : Option ℤ :=
  let key := String.mk ((jsLowerStr name.data).take 3)
  match WEEKDAYS.lookup key with
  | none => none
  | some target =>
      let todayDay := weekdayOfDay today
      let diff0 := todayDay - (target : ℤ)
      let diff := if diff0 < 0 then diff0 + 7 else diff0
      some (today - diff)

/-- `lib/parser.js` `isoForWeekday` (`today` is the current processing date as
an epoch day number; the local-midnight date rendered by `toISOString` is this
same civil date in the zones the app runs in). -/
def isoForWeekday (today : ℤ) (name : String) : Option String :=
  (isoForWeekdayDay today name).map dayToIso

/-- Matcher for `/(\b\d{1,2}[\/\-]\d{1,2}(?:[\/\-]\d{2,4})\b)/` at one
position; returns the matched substring. -/
def m1Step (prev : Option Char) (s : List Char) : Option (List Char) :=
  if !isBoundary prev s.head? then none else
  pick (greedyLens jsIsDigit 1 2 s) fun k1 =>
    match exactTake jsIsDigit k1 s with
    | none => none
    | some (d1, r1) =>
        match r1 with
        | c1 :: r2 =>
            if c1 = '/' ∨ c1 = '-' then
              pick (greedyLens jsIsDigit 1 2 r2) fun k2 =>
                match exactTake jsIsDigit k2 r2 with
                | none => none
                | some (d2, r3) =>
                    match r3 with
                    | c2 :: r4 =>
                        if c2 = '/' ∨ c2 = '-' then
                          pick (greedyLens jsIsDigit 2 4 r4) fun k3 =>
                            match exactTake jsIsDigit k3 r4 with
                            | none => none
                            | some (d3, r5) =>
                                if isBoundary d3.getLast? r5.head? then
                                  some (d1 ++ [c1] ++ d2 ++ [c2] ++ d3)
                                else none
                        else none
                    | [] => none
            else none
        | [] => none

/-- Split on every `/` or `-` (JS `split(/[\/\-]/)`). -/
def splitSlashDash (l : List Char) : List String :=
  let rec go (acc : List Char) : List Char → List String
    | [] => [String.mk acc.reverse]
    | c :: rest =>
        if c = '/' ∨ c = '-' then String.mk acc.reverse :: go [] rest
        else go (c :: acc) rest
  go [] l

/-- `lib/parser.js` `parseMmDdToIso` (the year of the current processing date
substitutes for a missing third part, as in the source). -/
def parseMmDdToIso (todayYear : ℤ) (matched : List Char) : String :=
  let parts := (splitSlashDash matched).map jsTrim
  let mm := padStart2 (parts.getD 0 "")
  let dd := padStart2 (parts.getD 1 "")
  let yy :=
    match parts.get? 2 with
    | none => intDigits todayYear
    | some y2 => if y2.length = 2 then "20" ++ y2 else y2
  yy ++ "-" ++ mm ++ "-" ++ dd

def monthAbbrevs : List String :=
  ["jan", "feb", "mar", "apr", "may", "jun", "jul", "aug", "sep", "oct", "nov", "dec"]

/-- Matcher for
`/(jan|feb|…|dec)[a-z]*\.?\s+(\d{1,2})(?:,?\s*(\d{4}))?/i` at one position;
returns (month index from 1, day digits, optional year digits). -/
def m2Step (_prev : Option Char) (s : List Char) : Option (ℕ × List Char × Option (List Char)) :=
  pick (List.range monthAbbrevs.length) fun i =>
    match ciMatchAt (monthAbbrevs.getD i "").data s with
    | none => none
    | some r1 =>
        -- `[a-z]*` under `/i`: a run of ASCII letters, then optional `.`
        let r2 := (takeRun (fun c => c.isAlpha) r1).2
        let r3 := match r2 with | '.' :: t => t | _ => r2
        let (w1, r4) := takeRun jsIsSpace r3
        if w1.isEmpty then none else
        match exactTake jsIsDigit (min 2 (r4.takeWhile jsIsDigit).length) r4 with
        | none => none
        | some (dd, r5) =>
            if dd.isEmpty then none else
            -- optional `,? \s* \d{4}`
            let r6 := match r5 with | ',' :: t => t | _ => r5
            let r7 := (takeRun jsIsSpace r6).2
            match exactTake jsIsDigit 4 r7 with
            | some (yy, _) => some (i + 1, dd, some yy)
            | none => some (i + 1, dd, none)

/-- Weekday-name alternation of `findDate`:
`/\b(sunday|…|saturday|sun|…|sat)\b/i` (alternatives in source order). -/
def wdNames : List String :=
  ["sunday", "monday", "tuesday", "wednesday", "thursday", "friday", "saturday",
   "sun", "mon", "tue", "wed", "thu", "fri", "sat"]

def wdStep (prev : Option Char) (s : List Char) : Option String :=
  pick wdNames fun nm => (wordMatchStep nm.data prev s).map (fun _ => nm)

/-- `lib/parser.js` `findDate` (`today` = current processing date as an epoch
day number, used for missing years and weekday resolution). -/
def findDate (today : ℤ) (line : String) : Option String :=
  match scanFrom m1Step none line.data with
  | some cap => some (parseMmDdToIso (yearOfDay today) cap)
  | none =>
  match scanFrom m2Step none line.data with
  | some (mon, dd, yy) =>
      let mm := padStart2 (toString mon)
      let ddS := padStart2 (String.mk dd)
      let yyS := match yy with | some y => String.mk y | none => intDigits (yearOfDay today)
      some (yyS ++ "-" ++ mm ++ "-" ++ ddS)
  | none =>
  match scanFrom wdStep none line.data with
  | some nm => isoForWeekday today nm
  | none => none

/-! #### Times -/

/-- Optional `(AM|PM|am|pm)` (exact alternatives, as in the source patterns
without the `/i` flag). -/
def ampmTok (s : List Char) : List Char × List Char :=
  match s with
  | 'A' :: 'M' :: r => (['A', 'M'], r)
  | 'P' :: 'M' :: r => (['P', 'M'], r)
  | 'a' :: 'm' :: r => (['a', 'm'], r)
  | 'p' :: 'm' :: r => (['p', 'm'], r)
  | _ => ([], s)

/-- `\d{1,2}:\d{2}\s*(?:AM|PM|am|pm)?` at the head; returns (capture, rest). -/
def timeTok (s : List Char) : Option (List Char × List Char) :=
  pick [2, 1] fun k =>
    match exactTake jsIsDigit k s with
    | none => none
    | some (d1, r1) =>
        match r1 with
        | ':' :: r2 =>
            match exactTake jsIsDigit 2 r2 with
            | none => none
            | some (d2, r3) =>
                let (w, r4) := takeRun jsIsSpace r3
                let (ap, r5) := ampmTok r4
                some (d1 ++ [':'] ++ d2 ++ w ++ ap, r5)
        | _ => none

/-- Separator class `[–—\-to]`. -/
def isSepChar (c : Char) : Bool := c = '–' || c = '—' || c = '-' || c = 't' || c = 'o'

/-- `lib/parser.js` `normalizeTime`. -/
def normalizeTime (ts : String) : String :=
  let t : List Char := (jsTrim ts).data.filter (fun c => c ≠ '.')
  let step : Option Char → List Char → Option (ℕ × ℕ × List Char) := fun _ s =>
    pick [2, 1] fun k =>
      match exactTake jsIsDigit k s with
      | none => none
      | some (d1, r1) =>
          let (mmPart, r2) :=
            match r1 with
            | ':' :: r1' =>
                match exactTake jsIsDigit 2 r1' with
                | some (d2, r2') => (digitsToNat d2, r2')
                | none => (0, r1)
            | _ => (0, r1)
          let r3 := (takeRun jsIsSpace r2).2
          let (ap, _) := ampmTok r3
          some (digitsToNat d1, mmPart, ap)
  match scanFrom step none t with
  | none => String.mk t
  | some (hh0, mm, ap) =>
      let pm := ap = ['P', 'M'] ∨ ap = ['p', 'm']
      let hasAp := !ap.isEmpty
      let hh1 := if hasAp && pm && hh0 < 12 then hh0 + 12 else hh0
      let hh := if hasAp && !pm && hh1 = 12 then 0 else hh1
      pad2 hh ++ ":" ++ pad2 mm

/-- Matcher for the main time-range pattern of `findTimes`:
`/(\d{1,2}:\d{2}\s*(?:AM|PM|am|pm)?)\s*[–—\-to]{1,3}\s*(\d{1,2}:\d{2}\s*(?:AM|PM|am|pm)?)/`. -/
def timeRangeStep (_prev : Option Char) (s : List Char) : Option (String × String) :=
  match timeTok s with
  | none => none
  | some (t1, r1) =>
      let r2 := r1.dropWhile jsIsSpace
      pick (greedyLens isSepChar 1 3 r2) fun k =>
        match exactTake isSepChar k r2 with
        | none => none
        | some (_, r3) =>
            let r4 := r3.dropWhile jsIsSpace
            match timeTok r4 with
            | none => none
            | some (t2, _) => some (String.mk t1, String.mk t2)

def isDigitColon (c : Char) : Bool := jsIsDigit c || c = ':'

/-- `[\d:]{1,5}\s*(?:AM|PM|am|pm)?` with the group length fixed to `k`. -/
def digColonTokK (k : ℕ) (s : List Char) : Option (List Char × List Char) :=
  match exactTake isDigitColon k s with
  | none => none
  | some (g, r1) =>
      let (w, r2) := takeRun jsIsSpace r1
      let (ap, r3) := ampmTok r2
      some (g ++ w ++ ap, r3)

/-- Matcher for the `hours:` pattern of `findTimes`:
`/hours[:\s]*([\d:]{1,5}\s*(?:AM|PM|am|pm)?)\s*[–—\-to]{1,3}\s*([\d:]{1,5}\s*(?:AM|PM|am|pm)?)/i`. -/
def hoursStep (_prev : Option Char) (s : List Char) : Option (String × String) :=
  match ciMatchAt ("hours").data s with
  | none => none
  | some r1 =>
      pick (greedyLens (fun c => c = ':' || jsIsSpace c) 0 r1.length r1) fun kcs =>
        let r2 := r1.drop kcs
        pick [5, 4, 3, 2, 1] fun k1 =>
          match digColonTokK k1 r2 with
          | none => none
          | some (g1, r3) =>
              let r4 := r3.dropWhile jsIsSpace
              pick (greedyLens isSepChar 1 3 r4) fun ks =>
                match exactTake isSepChar ks r4 with
                | none => none
                | some (_, r5) =>
                    let r6 := r5.dropWhile jsIsSpace
                    pick [5, 4, 3, 2, 1] fun k2 =>
                      match digColonTokK k2 r6 with
                      | none => none
                      | some (g2, _) => some (String.mk g1, String.mk g2)

/-- Case-sensitive literal match at the head. -/
def litMatchAt (pat s : List Char) : Option (List Char) :=
  match pat, s with
  | [], rest => some rest
  | p :: ps, c :: cs => if c = p then litMatchAt ps cs else none
  | _ :: _, [] => none

/-- Shared tail `(\d{1,2})(?::(\d{2}))?\s*(AM|PM|am|pm)?` of the
`started at`/`stopped at` patterns. -/
def hourMinApTok (s : List Char) : Option (List Char × Option (List Char) × List Char) :=
  match exactTake jsIsDigit (min 2 (s.takeWhile jsIsDigit).length) s with
  | none => none
  | some (d1, r1) =>
      if d1.isEmpty then none else
      let (mmPart, r2) :=
        match r1 with
        | ':' :: r1' =>
            match exactTake jsIsDigit 2 r1' with
            | some (d2, r2') => (some d2, r2')
            | none => ((none : Option (List Char)), r1)
        | _ => (none, r1)
      let r3 := (takeRun jsIsSpace r2).2
      let (ap, _) := ampmTok r3
      some (d1, mmPart, ap)

/-- Matcher for `/start(?:ed)?\s+at\s+(\d{1,2})(?::(\d{2}))?\s*(AM|PM|am|pm)?/`. -/
def startAtStep (_prev : Option Char) (s : List Char) : Option (List Char × Option (List Char) × List Char) :=
  match litMatchAt ("start").data s with
  | none => none
  | some r1 =>
      let r2 := match litMatchAt ("ed").data r1 with | some t => t | none => r1
      let (w1, r3) := takeRun jsIsSpace r2
      if w1.isEmpty then none else
      match litMatchAt ("at").data r3 with
      | none => none
      | some r4 =>
          let (w2, r5) := takeRun jsIsSpace r4
          if w2.isEmpty then none else hourMinApTok r5

/-- Matcher for `/stop(?:ped)?\s*(?:at)?\s+(\d{1,2})(?::(\d{2}))?\s*(AM|PM|am|pm)?/`. -/
def stopAtStep (_prev : Option Char) (s : List Char) : Option (List Char × Option (List Char) × List Char) :=
  match litMatchAt ("stop").data s with
  | none => none
  | some r1 =>
      let r2 := match litMatchAt ("ped").data r1 with | some t => t | none => r1
      pick (greedyLens jsIsSpace 0 r2.length r2) fun kw =>
        let r3 := r2.drop kw
        let tryAt : List (Option Unit) := [some (), none]
        pick tryAt fun withAt =>
          let r4 :=
            match withAt with
            | some _ => litMatchAt ("at").data r3
            | none => some r3
          match r4 with
          | none => none
          | some r5 =>
              let (w2, r6) := takeRun jsIsSpace r5
              if w2.isEmpty then none else hourMinApTok r6

/-- Build the time string of the `started/stopped at` branch:
`m[1].padStart(2,'0') + ':' + (m[2] || '00') + (m[3] ? ' ' + m[3] : '')`. -/
def builtAtTime (t : List Char × Option (List Char) × List Char) : String :=
  padStart2 (String.mk t.1) ++ ":" ++
    (match t.2.1 with | some mm => String.mk mm | none => "00") ++
    (if t.2.2.isEmpty then "" else " " ++ String.mk t.2.2)

/-- `lib/parser.js` `findTimes`. -/
def findTimes (line : String) : Option (String × String) :=
  match scanFrom timeRangeStep none line.data with
  | some (a, b) => some (normalizeTime a, normalizeTime b)
  | none =>
  match scanFrom hoursStep none line.data with
  | some (a, b) => some (normalizeTime a, normalizeTime b)
  | none =>
  match scanFrom startAtStep none line.data, scanFrom stopAtStep none line.data with
  | some ms, some me => some (normalizeTime (builtAtTime ms), normalizeTime (builtAtTime me))
  | _, _ => none

/-- `lib/parser.js` `parseTimeToMinutes`: leftmost `(\d{1,2}):(\d{2})`. -/
def parseTimeToMinutes (t : String) : Option ℕ :=
  let step : Option Char → List Char → Option ℕ := fun _ s =>
    pick [2, 1] fun k =>
      match exactTake jsIsDigit k s with
      | none => none
      | some (d1, r1) =>
          match r1 with
          | ':' :: r2 =>
              match exactTake jsIsDigit 2 r2 with
              | some (d2, _) => some (digitsToNat d1 * 60 + digitsToNat d2)
              | none => none
          | _ => none
  scanFrom step none t.data

/-- `lib/parser.js` `computeHoursFromTimes`. -/
def computeHoursFromTimes (start endT : String) : ℚ :=
  match parseTimeToMinutes start, parseTimeToMinutes endT with
  | some s, some e =>
      let m0 : ℤ := (e : ℤ) - (s : ℤ)
      let m1 : ℤ := if m0 < 0 then m0 + 24 * 60 else m0
      let m2 : ℤ := roundToNearestQuarterMinutes m1
      (jsRound ((m2 : ℚ) / 60 * 100) : ℚ) / 100
  | _, _ => 0

/-! #### Money, helper hours, addresses -/

/-- Value of a matched `[0-9]+(?:\.[0-9]{1,2})?` token (JS `parseFloat`). -/
def parseDecQ (intPart : List Char) (fracPart : List Char) : ℚ :=
  (digitsToNat intPart : ℚ) + (digitsToNat fracPart : ℚ) / (10 ^ fracPart.length : ℕ)

/-- `[0-9]+(?:\.[0-9]{1,2})?` at the head; returns (capture, value, rest). -/
def numTok (s : List Char) : Option (List Char × ℚ × List Char) :=
  let (d1, r1) := takeRun jsIsDigit s
  if d1.isEmpty then none else
  match r1 with
  | '.' :: r2 =>
      let (d2all, _) := takeRun jsIsDigit r2
      let d2 := d2all.take 2
      if d2.isEmpty then some (d1, parseDecQ d1 [], r1)
      else some (d1 ++ ['.'] ++ d2, parseDecQ d1 d2, r2.drop d2.length)
  | _ => some (d1, parseDecQ d1 [], r1)

/-- Matcher for `/\$\s*([0-9]+(?:\.[0-9]{1,2})?)/` at one position. -/
def dollarStep (_prev : Option Char) (s : List Char) : Option ℚ :=
  match s with
  | '$' :: r1 =>
      let r2 := r1.dropWhile jsIsSpace
      (numTok r2).map (fun t => t.2.1)
  | _ => none

/-- The `$`-prefixed branch of `findMoney`. -/
def findMoneyDollar (line : String) : Option ℚ :=
  scanFrom dollarStep none line.data

def moneyKeywords : List String :=
  ["gas", "materials", "material", "helper", "paid", "cost", "charge", "fee"]

/-- Matcher for the keyword-scoped branch
`/(?:gas|materials|material|helper|paid|cost|charge|fee)[:\s]*\$?\s*([0-9]+(?:\.[0-9]{1,2})?)/i`;
returns the captured amount token and its value. -/
def keywordMoneyStep (_prev : Option Char) (s : List Char) : Option (List Char × ℚ) :=
  pick moneyKeywords fun kw =>
    match ciMatchAt kw.data s with
    | none => none
    | some r1 =>
        let r2 := (takeRun (fun c => c = ':' || jsIsSpace c) r1).2
        let r3 := match r2 with | '$' :: t => t | _ => r2
        let r4 := r3.dropWhile jsIsSpace
        (numTok r4).map (fun t => (t.1, t.2.1))

/-- The keyword-scoped capture of `findMoney` (before the `H:MM` filter). -/
def findMoneyKeyword (line : String) : Option (List Char × ℚ) :=
  scanFrom keywordMoneyStep none line.data

/-- The rejection test of `findMoney`: `/^\d{1,2}:\d{2}$/` on the candidate. -/
def isBareHMM (cand : List Char) : Bool :=
  match cand with
  | [a, ':', c, d] => jsIsDigit a && jsIsDigit c && jsIsDigit d
  | [a, b, ':', c, d] => jsIsDigit a && jsIsDigit b && jsIsDigit c && jsIsDigit d
  | _ => false

/-- `lib/parser.js` `findMoney`. -/
def findMoney (line : String) : Option ℚ :=
  match findMoneyDollar line with
  | some v => some v
  | none =>
      match findMoneyKeyword line with
      | some (cand, v) => if !isBareHMM cand then some v else none
      | none => none

/-- Matcher for `/helper\s*(?:[:\-]?\s*)?(\d+(?:\.\d+)?)\s*(?:hrs|hours|hr)?/i`. -/
def helperStep (_prev : Option Char) (s : List Char) : Option ℚ :=
  match ciMatchAt ("helper").data s with
  | none => none
  | some r1 =>
      let r2 := r1.dropWhile jsIsSpace
      let r3 := match r2 with | ':' :: t => t.dropWhile jsIsSpace | '-' :: t => t.dropWhile jsIsSpace | _ => r2
      let (d1, r4) := takeRun jsIsDigit r3
      if d1.isEmpty then none else
      match r4 with
      | '.' :: r5 =>
          let (d2, _) := takeRun jsIsDigit r5
          if d2.isEmpty then some (parseDecQ d1 []) else some (parseDecQ d1 d2)
      | _ => some (parseDecQ d1 [])

/-- `lib/parser.js` `findHelperHours`. -/
def findHelperHours (line : String) : Option ℚ :=
  scanFrom helperStep none line.data

/-- `lib/parser.js` `isTimeOnly`. -/
def isTimeOnly (line : String) : Bool :=
  let l := line.data
  let r0 := l.dropWhile jsIsSpace
  -- `/^\s*(?:AM|PM|am|pm)\.?$/`
  let c1 :=
    match ampmTok r0 with
    | ([], _) => false
    | (_, rest) =>
        match rest with
        | [] => true
        | ['.'] => true
        | _ => false
  -- `/^\s*\d{1,2}:\d{2}\s*(?:AM|PM|am|pm)?\s*$/`
  let c2 :=
    let (d1, r1) := takeRun jsIsDigit r0
    if d1.isEmpty ∨ d1.length > 2 then false else
    match r1 with
    | ':' :: r2 =>
        let (d2, r3) := takeRun jsIsDigit r2
        if d2.length ≠ 2 then false else
        let r4 := r3.dropWhile jsIsSpace
        let (_, r5) := ampmTok r4
        (r5.dropWhile jsIsSpace).isEmpty
    | _ => false
  -- `/^\s*\d{1,2}\s*(?:AM|PM|am|pm)\s*$/`
  let c3 :=
    let (d1, r1) := takeRun jsIsDigit r0
    if d1.isEmpty ∨ d1.length > 2 then false else
    let r2 := r1.dropWhile jsIsSpace
    match ampmTok r2 with
    | ([], _) => false
    | (_, r3) => (r3.dropWhile jsIsSpace).isEmpty
  c1 || c2 || c3

def isPhoneSep (c : Char) : Bool := c = '-' || c = '.' || jsIsSpace c

/-- Matcher (existence only) for
`/(?:\+?\d{1,2}[-.\s]?)?(?:\(\d{3}\)|\d{3})[-.\s]?\d{3}[-.\s]?\d{4}/`. -/
def phoneStep (_prev : Option Char) (s : List Char) : Option Unit :=
  let core : List Char → Option Unit := fun r =>
    let afterArea : Option (List Char) :=
      match r with
      | '(' :: t =>
          match exactTake jsIsDigit 3 t with
          | some (_, ')' :: t2) => some t2
          | _ => none
      | _ =>
          match exactTake jsIsDigit 3 r with
          | some (_, t2) => some t2
          | none => none
    match afterArea with
    | none => none
    | some t2 =>
        pick [1, 0] fun k1 =>
          match exactTake isPhoneSep k1 t2 with
          | none => none
          | some (_, t3) =>
              match exactTake jsIsDigit 3 t3 with
              | none => none
              | some (_, t4) =>
                  pick [1, 0] fun k2 =>
                    match exactTake isPhoneSep k2 t4 with
                    | none => none
                    | some (_, t5) =>
                        match exactTake jsIsDigit 4 t5 with
                        | some _ => some ()
                        | none => none
  -- optional prefix `\+?\d{1,2}[-.\s]?`
  let withPrefix : Option Unit :=
    let r1 := match s with | '+' :: t => t | _ => s
    pick (greedyLens jsIsDigit 1 2 r1) fun kd =>
      match exactTake jsIsDigit kd r1 with
      | none => none
      | some (_, r2) =>
          pick [1, 0] fun k =>
            match exactTake isPhoneSep k r2 with
            | none => none
            | some (_, r3) => core r3
  match withPrefix with
  | some u => some u
  | none => core s

/-- `lib/parser.js` `looksLikePhone`. -/
def looksLikePhone (line : String) : Bool :=
  (scanFrom phoneStep none line.data).isSome

def streetKeywords : List String :=
  ["St", "Street", "Ave", "Avenue", "Rd", "Road", "Blvd", "Drive", "Dr", "Market",
   "Spring", "Lane", "Ln", "Court", "Ct", "Way", "Place", "Terrace", "Terr"]

/-- `/\b(St|Street|…|Terr)\b/i` test. -/
def hasStreetKeyword (line : String) : Bool :=
  (pick streetKeywords fun kw =>
    scanFrom (wordMatchStep kw.data) none line.data).isSome

def isAddrChunkChar (c : Char) : Bool :=
  c.isAlpha || jsIsDigit c || c = '.' || c = '-' || c = ' '

/-- Matcher (existence only) for `/\b\d{1,5}\s+[A-Za-z0-9\.\- ]{3,}\b/`. -/
def numberWordStep (prev : Option Char) (s : List Char) : Option Unit :=
  if !isBoundary prev s.head? then none else
  pick (greedyLens jsIsDigit 1 5 s) fun kd =>
    match exactTake jsIsDigit kd s with
    | none => none
    | some (_, r1) =>
        let (w, r2) := takeRun jsIsSpace r1
        if w.isEmpty then none else
        let run := (r2.takeWhile isAddrChunkChar).length
        if run < 3 then none else
        pick ((List.range (run - 2)).map (fun i => run - i)) fun j =>
          let chunk := r2.take j
          let rest := r2.drop j
          if isBoundary chunk.getLast? rest.head? then some () else none

/-- `/^\s*\d+\s*$/` test. -/
def isBareNumberLine (line : String) : Bool :=
  let r0 := line.data.dropWhile jsIsSpace
  let (d, r1) := takeRun jsIsDigit r0
  !d.isEmpty && (r1.dropWhile jsIsSpace).isEmpty

/-- `lib/parser.js` `findAddressCandidate`. -/
def findAddressCandidate (line : String) : Option String :=
  if isTimeOnly line then none
  else if hasStreetKeyword line then some (jsTrim line)
  else if (scanFrom numberWordStep none line.data).isSome ∧ ¬ isBareNumberLine line then
    some (jsTrim line)
  else if looksLikePhone line then some (jsTrim line)
  else none

/-- `lib/parser.js` `findAddress` (delegates to `findAddressCandidate`). -/
def findAddress (line : String) : Option String := findAddressCandidate line

/-! #### Entry segmentation (`parseTextToEntries`) -/

/-- The central parser record. Field `endT` embeds the source field `end`. -/
structure Entry where
  worker : Option String
  date : Option String
  address : Option String
  start : Option String
  endT : Option String
  totalHours : Option ℚ
  materials : Option ℚ
  notes : String
  deriving Repr, DecidableEq

/-- Render a JS number for string interpolation (`helper ${h}hrs.`): the
shortest decimal form, as produced for the decimal fractions arising here. -/
def jsNumToString (q : ℚ) : String :=
  let n := q.num.natAbs
  let sign := if q.num < 0 then "-" else ""
  let rec findK (d : ℕ) (p : ℕ) (k : ℕ) : ℕ :=
    match k with
    | 0 => 0
    | k' + 1 => if p % d = 0 then 0 else 1 + findK d (p * 10) k'
  let k := findK q.den 1 30
  if q.den = 1 then sign ++ toString n
  else
    let scaled := n * (10 ^ k) / q.den
    let intPart := scaled / 10 ^ k
    let fracPart := scaled % 10 ^ k
    let fracS := toString fracPart
    let fracPad := (String.mk (List.replicate (k - fracS.length) '0')) ++ fracS
    sign ++ toString intPart ++ "." ++ fracPad

/-- Text after the first `:` of the line
(`line.split(":").slice(1).join(":")`), or `""` when there is no colon. -/
def afterColon (line : String) : String :=
  let rec go : List Char → List Char
    | [] => []
    | ':' :: rest => rest
    | _ :: rest => go rest
  String.mk (go line.data)

/-- The merge of a classified line into the open entry (the `if (current)`
branch of the segmentation loop): already-truthy fields are kept, the whole
line is appended to the notes (preceded by a helper-hours note). -/
def mergeLine (today : ℤ) (c : Entry) (line : String) : Entry :=
  let date := findDate today line
  let times := findTimes line
  let money := findMoney line
  let helperH := findHelperHours line
  let addressCand := findAddressCandidate line
  let c1 := if ¬ sTruthy c.date ∧ sTruthy date then { c with date := date } else c
  let c2 := if ¬ sTruthy c1.address ∧ sTruthy addressCand then { c1 with address := addressCand } else c1
  let c3 :=
    match times with
    | some t => if ¬ sTruthy c2.start then { c2 with start := some t.1, endT := some t.2 } else c2
    | none => c2
  let c4 := if ¬ qTruthy c3.materials ∧ qTruthy money then { c3 with materials := money } else c3
  let notes0 := if qTruthy helperH then "helper " ++ jsNumToString (helperH.getD 0) ++ "hrs. " else ""
  { c4 with notes := c4.notes ++ notes0 ++ line ++ " " }

/-- One iteration of the segmentation loop of `parseTextToEntries`
(state: already-emitted entries, open entry). The unused `recent` buffer of
the source (maintained but never read) is omitted. -/
def processLine (today : ℤ) (st : List Entry × Option Entry) (line : String) :
    List Entry × Option Entry :=
  let worker := findWorker line
  let date := findDate today line
  let times := findTimes line
  let money := findMoney line
  let helperH := findHelperHours line
  let addressCand := findAddressCandidate line
  if worker.isSome ∧ line.data.contains ':' then
    let notes0 := if qTruthy (helperH) then "helper " ++ jsNumToString (helperH.getD 0) ++ "hrs. " else ""
    let after := jsTrim (afterColon line)
    let notes1 := notes0 ++ (if after ≠ "" then after ++ " " else "")
    let c : Entry :=
      { worker := worker, date := date, address := none
        start := times.map Prod.fst, endT := times.map Prod.snd
        totalHours := none
        materials := if qTruthy money then money else none
        notes := notes1 }
    (st.1 ++ st.2.toList, some c)
  else
    match st.2 with
    | none =>
        match times with
        | some t =>
            (st.1, some { worker := none, date := date, address := none
                          start := some t.1, endT := some t.2, totalHours := none
                          materials := none, notes := "" })
        | none =>
            if sTruthy addressCand ∨ sTruthy date ∨ times.isSome ∨ qTruthy money ∨ worker.isSome then
              (st.1, some { worker := worker, date := date, address := addressCand
                            start := times.map Prod.fst, endT := times.map Prod.snd
                            totalHours := none
                            materials := if qTruthy money then money else none
                            notes := line })
            else st
    | some c => (st.1, some (mergeLine today c line))

/-- Split `notes` on `/\s{2,}|\r?\n|(?<=\.)\s+/`. -/
def splitNotes (s : String) : List String :=
  let rec go (prev : Option Char) (acc : List Char) : List Char → List String
    | [] => [String.mk acc.reverse]
    | c :: rest =>
        let run := 1 + (rest.takeWhile jsIsSpace).length
        if jsIsSpace c ∧ (run ≥ 2 ∨ c = '\n' ∨ prev = some '.') then
          String.mk acc.reverse ::
            go (some ((c :: rest.take (run - 1)).getLast (by simp))) [] (rest.drop (run - 1))
        else
          go (some c) (c :: acc) rest
    termination_by l => l.length
    decreasing_by
    · simp only [List.length_drop, List.length_cons]; omega
    · simp only [List.length_cons]; omega
  go none [] s.data

/-- Split input text on `/\r?\n/`. -/
def splitLines (s : String) : List String :=
  let rec go (acc : List Char) : List Char → List String
    | [] => [String.mk acc.reverse]
    | '\r' :: '\n' :: rest => String.mk acc.reverse :: go [] rest
    | '\n' :: rest => String.mk acc.reverse :: go [] rest
    | c :: rest => go (c :: acc) rest
  go [] s.data

/-- Substring test used for the weekday rescan of notes. -/
def notesWeekday (notes : String) : Option String :=
  scanFrom wdStep none notes.data

/-- The first non-empty note line with a truthy address candidate. -/
def addressFromNotes (notes : String) : Option String :=
  pick (((splitNotes notes).map jsTrim).filter (fun s => s ≠ ""))
    (fun nl => match findAddressCandidate nl with
      | some c => if c ≠ "" then some c else none
      | none => none)

/-- Post-processing step 1: backfill a missing address from the note lines. -/
def fixAddress (e : Entry) : Entry :=
  if ¬ sTruthy e.address ∧ e.notes ≠ "" then
    match addressFromNotes e.notes with
    | some c => { e with address := some c }
    | none => e
  else e

/-- Post-processing step 2: backfill a missing date from a weekday mention. -/
def fixWeekdayDate (today : ℤ) (e : Entry) : Entry :=
  if ¬ sTruthy e.date ∧ e.notes ≠ "" then
    match notesWeekday e.notes with
    | some nm => { e with date := isoForWeekday today nm }
    | none => e
  else e

/-- Post-processing step 3: a timed entry without a date gets today's date. -/
def fixDefaultDate (today : ℤ) (e : Entry) : Entry :=
  if ¬ sTruthy e.date ∧ sTruthy e.start ∧ sTruthy e.endT then
    { e with date := some (dayToIso today) }
  else e

/-- Post-processing step 4: backfill missing materials from the notes. -/
def fixMaterials (e : Entry) : Entry :=
  if ¬ qTruthy e.materials ∧ e.notes ≠ "" then
    match findMoney e.notes with
    | some m => if m ≠ 0 then { e with materials := some m } else e
    | none => e
  else e

/-- Post-processing step 5: compute `totalHours` from `start`/`end`. -/
def fixHours (e : Entry) : Entry :=
  if ¬ qTruthy e.totalHours ∧ sTruthy e.start ∧ sTruthy e.endT then
    { e with totalHours := some (computeHoursFromTimes (e.start.getD "") (e.endT.getD "")) }
  else e

/-- The post-processing loop body of `parseTextToEntries` (address, date,
materials and duration backfill, in source order; the final `Number(...)`
coercion of `materials` is the identity in this model). -/
def postFix (today : ℤ) (e : Entry) : Entry :=
  fixHours (fixMaterials (fixDefaultDate today (fixWeekdayDate today (fixAddress e))))

/-- `lib/parser.js` `parseTextToEntries` (`today` = the current processing
date as an epoch day number, standing for the source's `new Date()`). -/
def parseTextToEntries (today : ℤ) (text : String) : List Entry :=
  let lines := ((splitLines text).map jsTrim).filter (fun l => l ≠ "")
  let st := lines.foldl (processLine today) ([], none)
  let entries := st.1 ++ st.2.toList
  entries.map (postFix today)

/-- A row handed to the allocator / payroll (the `unit` column is carried
through unchanged by the source and is omitted). Field `endT` embeds the
source field `end` (a Lean keyword). -/
structure Row where
  worker : Option String
  date : Option String
  address : Option String
  start : Option String
  endT : Option String
  totalHours : Option ℚ
  materials : Option ℚ
  notes : Option String
  description : Option String
  deriving Repr, DecidableEq

def emptyRow : Row :=
  { worker := none, date := none, address := none, start := none, endT := none
    totalHours := none, materials := none, notes := none, description := none }

/-! ### `lib/allocator.js`

The Distance-Matrix request is a function parameter (`Fetcher`); `Except.error`
models a thrown request error (caught by the source, yielding `null`).
Dates are handled as in the deployment configuration, in which wall-clock
times of the group's day round-trip exactly (minutes since midnight). -/

/-- One Distance-Matrix element (`rows[0].elements[0]`); `duration` is the
travel time in seconds when present. -/
structure DMElement where
  status : String
  duration : Option ℕ
  deriving Repr, DecidableEq

/-- The remote lookup: origin and destination address to either a thrown
error or a response (`none` models a response without usable element). -/
def Fetcher : Type := String → String → Except Unit (Option DMElement)

/-- Element handling of `getDurationsBetweenAddresses` (minutes per pair). -/
def elemMinutes (resp : Option DMElement) : ℕ :=
  match resp with
  | none => 15
  | some el =>
      if el.status = "OK" ∧ el.duration.isSome then
        (el.duration.getD 0 + 59) / 60
      else
        match el.duration with
        | some v => if v ≠ 0 then (jsRound ((v : ℚ) / 60)).toNat else 15
        | none => 15

/-- `lib/allocator.js` `getDurationsBetweenAddresses`: `none` when no key is
configured, fewer than two addresses, or any request throws. -/
def getDurationsBetweenAddresses (fetch : Fetcher) (addresses : List String)
    (googleApiKey : Option String) : Option (List ℕ) :=
  if ¬ sTruthy googleApiKey ∨ addresses.length < 2 then none
  else
    match (addresses.zip addresses.tail).mapM (fun p => fetch p.1 p.2) with
    | Except.error _ => none
    | Except.ok resps => some (resps.map elemMinutes)

/-- Substring occurrence test (JS `includes`). -/
def listContainsSub (l pat : List Char) : Bool :=
  (scanFrom (fun _ s => (litMatchAt pat s).map (fun _ => ())) none l).isSome

/-- `lib/allocator.js` `complexityWeight`. -/
def complexityKeywords : List String :=
  ["install", "replace", "repair", "leak", "leaking", "remove", "service",
   "shovel", "snow", "emergency"]

def complexityWeight (text : String) : ℕ :=
  let t := jsLowerStr text.data
  1 + (complexityKeywords.filter (fun kw => listContainsSub t kw.data)).length

/-- `lib/allocator.js` `minutesToTimeStr` (rendering of
`addMinutes(midnight, m)` as `HH:MM`; the date rolls over past 24h). -/
def minutesToTimeStr (m : ℤ) : String :=
  pad2 ((m.toNat / 60) % 24) ++ ":" ++ pad2 (m.toNat % 60)

/-- `lib/allocator.js` `parseTimeToDate`, as the wall-clock minute of day.
Results: `none` = the source's `null` (falsy time string);
`some none` = an invalid date (unparseable date or time, JS `NaN` clock);
`some (some m)` = a valid time `m` minutes after midnight of the group date. -/
def parseTimeToDate (dateIso : Option String) (timeStr : Option String) :
    Option (Option ℤ) :=
  if ¬ sTruthy timeStr then none
  else
    let cleaned := (timeStr.getD "").data.filter (fun c => c ≠ '.')
    let timeVal : Option ℤ :=
      match dateIso with
      | none => none
      | some d =>
          if (parseIsoDate d).isSome then
            match cleaned with
            | [h1, ':', m1, m2] =>
                if [h1, m1, m2].all jsIsDigit ∧ digitsToNat [m1, m2] < 60 then
                  some ((digitsToNat [h1] : ℤ) * 60 + (digitsToNat [m1, m2] : ℤ))
                else none
            | [h1, h2, ':', m1, m2] =>
                if [h1, h2, m1, m2].all jsIsDigit ∧ digitsToNat [h1, h2] < 24 ∧
                    digitsToNat [m1, m2] < 60 then
                  some ((digitsToNat [h1, h2] : ℤ) * 60 + (digitsToNat [m1, m2] : ℤ))
                else none
            | _ => none
          else none
    some timeVal

/-- `r.totalHours || (r.start && r.end)` (the filter of the
no-redistribution branch). -/
def rowHasHours (r : Row) : Bool :=
  qTruthy r.totalHours || (sTruthy r.start && sTruthy r.endT)

/-- Duration normalization of the no-redistribution branch. -/
def normalizeRow (date : Option String) (r : Row) : Row :=
  if ¬ qTruthy r.totalHours ∧ sTruthy r.start ∧ sTruthy r.endT then
    match parseTimeToDate date r.start, parseTimeToDate date r.endT with
    | some (some s), some (some e) =>
        { r with totalHours := some (max 0 ((roundToNearestQuarterMinutes (e - s) : ℚ) / 60)) }
    | _, _ =>
        -- invalid date arithmetic: the source stores `NaN`, which every
        -- later truthiness test and serialization treats like an absent value
        { r with totalHours := none }
  else r

/-- Distinct truthy `totalHours` values in first-occurrence order
(`Array.from(new Set(...))`). -/
def distinctHours (rows : List Row) : List ℚ :=
  (rows.filterMap (fun r => if qTruthy r.totalHours then r.totalHours else none)).foldl
    (fun acc v => if acc.contains v then acc else acc ++ [v]) []

/-- `"total"` (case-insensitive) occurs in the notes
(`/total|day total|total hours/i`, whose alternatives all contain `total`). -/
def notesMentionTotal (notes : String) : Bool :=
  listContainsSub (jsLowerStr notes.data) ("total").data

/-- Day-total determination, steps 1–3 (`none` = still undetermined and the
computed-from-times fallback runs). -/
def dayTotalFirst (rows : List Row) : Option ℚ :=
  let totals := distinctHours rows
  if totals.length = 1 then totals.head?
  else
    let sumKnown := (rows.map (fun r => if qTruthy r.totalHours then r.totalHours.getD 0 else 0)).sum
    if sumKnown > 0 then some sumKnown
    else
      match rows.find? (fun r => sTruthy r.notes ∧ notesMentionTotal (r.notes.getD "") ∧
          qTruthy r.totalHours) with
      | some r => some (r.totalHours.getD 0)
      | none => none

/-- Per-row hours of the computed-from-times fallback
(`none` = the source's `NaN` from invalid date arithmetic). -/
def computedHours (date : Option String) (r : Row) : Option ℚ :=
  if sTruthy r.start ∧ sTruthy r.endT then
    match parseTimeToDate date r.start, parseTimeToDate date r.endT with
    | some (some sd), some (some ed) =>
        some ((roundToNearestQuarterMinutes (ed - sd) : ℚ) / 60)
    | _, _ => none
  else some 0

/-- JS summation with `NaN` propagation. -/
def sumWithNaN (l : List (Option ℚ)) : Option ℚ :=
  l.foldl (fun acc v => match acc, v with
    | some a, some b => some (a + b)
    | _, _ => none) (some 0)

def targetsOf (rows : List Row) : List Row := rows.filter (fun r => ¬ qTruthy r.totalHours)

def fixedOf (rows : List Row) : List Row := rows.filter (fun r => qTruthy r.totalHours)

def knownSumOf (rows : List Row) : ℚ :=
  ((fixedOf rows).map (fun r => r.totalHours.getD 0)).sum

def remainderOf (dayTotal : ℚ) (rows : List Row) : ℚ :=
  max 0 (dayTotal - knownSumOf rows)

/-- `r.address || r.notes || r.description || "Unknown"`. -/
def addrTextOf (r : Row) : String :=
  if sTruthy r.address then r.address.getD ""
  else if sTruthy r.notes then r.notes.getD ""
  else if sTruthy r.description then r.description.getD ""
  else "Unknown"

def addressesOf (rows : List Row) : List String := (targetsOf rows).map addrTextOf

/-- Total travel minutes: provider durations when present and non-empty,
else the flat 15-minute buffer between consecutive targets. -/
def totalTravelOf (td : Option (List ℕ)) (nTargets : ℕ) : ℤ :=
  match td with
  | some ds => if ds.length ≠ 0 then ((ds.map (Int.ofNat)).sum) else max 0 ((nTargets : ℤ) - 1) * 15
  | none => max 0 ((nTargets : ℤ) - 1) * 15

/-- `availableMinutes` (the source clamps a negative value to 0). -/
def availableMinutesOf (td : Option (List ℕ)) (rows : List Row) (dayTotal : ℚ) : ℤ :=
  max 0 (jsRound (remainderOf dayTotal rows * 60) - totalTravelOf td (targetsOf rows).length)

/-- `${t.description || ""} ${t.notes || ""} ${t.address || ""}`. -/
def weightTextOf (t : Row) : String :=
  t.description.getD "" ++ " " ++ t.notes.getD "" ++ " " ++ t.address.getD ""

def weightsOf (rows : List Row) : List ℕ :=
  (targetsOf rows).map (fun t => complexityWeight (weightTextOf t))

/-- `weights.reduce(...) || targets.length`. -/
def weightSumOf (rows : List Row) : ℕ :=
  if (weightsOf rows).sum ≠ 0 then (weightsOf rows).sum else (targetsOf rows).length

/-- `serviceMinutesByTarget`. -/
def serviceSharesOf (td : Option (List ℕ)) (rows : List Row) (dayTotal : ℚ) : List ℤ :=
  (weightsOf rows).map (fun (w : ℕ) =>
    jsRound ((w : ℚ) / (weightSumOf rows : ℚ) * ((max 0 (availableMinutesOf td rows dayTotal) : ℤ) : ℚ)))

/-- `serviceMinutesByTarget[i] || Math.round(availableMinutes / max(1, n))`. -/
def servsOf (td : Option (List ℕ)) (rows : List Row) (dayTotal : ℚ) : List ℤ :=
  (serviceSharesOf td rows dayTotal).map (fun s =>
    if s ≠ 0 then s
    else jsRound ((availableMinutesOf td rows dayTotal : ℚ) / ((max 1 (targetsOf rows).length : ℕ) : ℚ)))

/-- `travelByTarget`. -/
def travelByTargetOf (td : Option (List ℕ)) (nTargets : ℕ) : List ℤ :=
  (List.range nTargets).map (fun idx =>
    match td with
    | some ds => if idx < ds.length then (ds.getD idx 0 : ℤ) else 0
    | none => if idx < nTargets - 1 then 15 else 0)

/-- The running minimum of `fixedStarts.reduce((a,b) => a < b ? a : b)` with
JS `NaN` comparison semantics (`none` = invalid date, comparisons false). -/
def jsDateMin (a b : Option ℤ) : Option ℤ :=
  match a, b with
  | some x, some y => if x < y then a else b
  | _, _ => b

/-- Day-start minute of the group (`none` = the invalid-date/`NaN` clock). -/
def dayStartMinutesOf (date : Option String) (rows : List Row) : Option ℤ :=
  let fixedStarts := (fixedOf rows).filterMap (fun r => parseTimeToDate date r.start)
  match fixedStarts with
  | f :: fs => fs.foldl jsDateMin f
  | [] =>
      match date with
      | some d => if (parseIsoDate d).isSome then some (8 * 60) else none
      | none => none

/-- The sequential assignment loop: current cursor and `(service, travel)`
minutes per target, producing `(startMinutes, endMinutes)` per target. -/
def scheduleMinutes : ℤ → List (ℤ × ℤ) → List (ℤ × ℤ)
  | _, [] => []
  | cur, (serv, travel) :: rest =>
      (cur, cur + serv) ::
        scheduleMinutes (roundToNearestQuarterMinutes (cur + serv + travel)) rest

/-- The allocation section of `allocateTimesAcrossAddresses` for one group
(source lines 172–240), given the already-computed travel durations. -/
def allocCore (td : Option (List ℕ)) (date : Option String) (rows : List Row)
    (dayTotal : ℚ) : List Row :=
  let targets := targetsOf rows
  let servs := servsOf td rows dayTotal
  let travels := travelByTargetOf td targets.length
  match dayStartMinutesOf date rows with
  | none =>
      -- invalid day start: the source's cursor is `NaN`; every assigned
      -- field renders as `NaN` (hours falsy, times `"NaN:NaN"`)
      fixedOf rows ++ targets.map (fun t =>
        { t with totalHours := none, start := some "NaN:NaN", endT := some "NaN:NaN" })
  | some d0 =>
      let cur0 := roundToNearestQuarterMinutes d0
      let sched := scheduleMinutes cur0 (servs.zip travels)
      fixedOf rows ++ (targets.zip sched).map (fun p =>
        { p.1 with
          totalHours := some ((roundToNearestQuarterMinutes (p.2.2 - p.2.1) : ℚ) / 60)
          start := some (minutesToTimeStr p.2.1)
          endT := some (minutesToTimeStr p.2.2) })

/-- Per-group processing of `allocateTimesAcrossAddresses`. -/
def allocGroupRows (fetch : Fetcher) (googleApiKey : Option String)
    (date : Option String) (rows : List Row) : List Row :=
  if rows.all rowHasHours then rows.map (normalizeRow date)
  else
    let td := getDurationsBetweenAddresses fetch (addressesOf rows) googleApiKey
    match dayTotalFirst rows with
    | some dt => allocCore td date rows dt
    | none =>
        let computed := rows.map (computedHours date)
        let s := sumWithNaN computed
        match s with
        | some sv =>
            if sv > 0 then
              (rows.zip computed).map (fun p =>
                if ¬ qTruthy p.1.totalHours ∧ sTruthy p.1.start ∧ sTruthy p.1.endT then
                  { p.1 with totalHours := p.2 }
                else p.1)
            else allocCore td date rows 8
        | none => allocCore td date rows 8

/-- Group date: `e.date || (e.start && e.start.split("T")[0]) || e.date`. -/
def groupDateOf (e : Row) : Option String :=
  if sTruthy e.date then e.date
  else if sTruthy e.start then
    let sp := String.mk ((e.start.getD "").data.takeWhile (fun c => c ≠ 'T'))
    if sp ≠ "" then some sp else e.date
  else e.date

/-- Group key `${worker}::${date}` (absent date renders as `"undefined"`). -/
def groupKeyOf (e : Row) : String :=
  (if sTruthy e.worker then e.worker.getD "" else "Unknown") ++ "::" ++
    (match groupDateOf e with | some d => d | none => "undefined")

/-- Grouping by worker+date in first-occurrence key order; a group carries
the date value of its first row. -/
def buildGroups (entries : List Row) : List (String × Option String × List Row) :=
  entries.foldl (fun acc e =>
    let key := groupKeyOf e
    if (acc.find? (fun g => g.1 = key)).isSome then
      acc.map (fun g => if g.1 = key then (g.1, g.2.1, g.2.2 ++ [e]) else g)
    else acc ++ [(key, groupDateOf e, [e])]) []

/-- `lib/allocator.js` `allocateTimesAcrossAddresses` (the `tz` option only
feeds the date conversions already folded into `parseTimeToDate`). -/
def allocateTimesAcrossAddresses (fetch : Fetcher) (entries : List Row)
    (googleApiKey : Option String) : List Row :=
  ((buildGroups entries).map (fun g => allocGroupRows fetch googleApiKey g.2.1 g.2.2)).flatten

/-- Sum of the (truthy-or-zero) hours of a row list. -/
def sumHours (rows : List Row) : ℚ := (rows.map (fun r => r.totalHours.getD 0)).sum

/-! ### `lib/payroll.js` -/

/-- `lib/payroll.js` `RATES`. -/
def RATES : List (String × ℚ) :=
  [("Jose", 25), ("José", 25), ("Myer", 20), ("Damian", 30), ("Chris", 30)]

def rateLookup (w : String) : ℚ :=
  match RATES.lookup w with
  | some r => r
  | none => 0

/-- `lib/payroll.js` `isWeekend`. The zone conversion in the source maps the
date-only ISO string to that same civil date when the process zone matches the
requested zone (the setting the code is written for); an absent or unparseable
date yields `false`. The `tz` argument is kept for signature fidelity. -/
def isWeekend (dateIso : Option String) (_tz : String) : Bool :=
  match dateIso with
  | none => false
  | some s =>
      if s = "" then false
      else
        match parseIsoDate s with
        | none => false
        | some (y, m, d) =>
            let day := weekdayOfDay (daysFromCivil y m d)
            day = 0 || day = 6

/-- `lib/payroll.js` premium-eligible workers (the weekend 1.5× subset). -/
def premiumWorkers : List String := ["Jose", "José", "Chris", "Damian"]

/-- `lib/payroll.js` `computePayForRow`. -/
def computePayForRow (row : Row) (tz : String) : ℚ :=
  let worker := row.worker.getD ""
  let rate := rateLookup worker
  let hours := row.totalHours.getD 0
  let weekend := isWeekend row.date tz
  let pay : ℚ :=
    if weekend then
      if premiumWorkers.contains worker then hours * rate * (3/2) else hours * rate
    else hours * rate
  (jsRound (pay * 100) : ℚ) / 100

/-! ### Concrete instances used in the theorems -/

/-- A provider whose every request throws. -/
def failFetch : Fetcher := fun _ _ => Except.error ()

/-- A provider that reports zero seconds of travel between any two addresses. -/
def zeroFetch : Fetcher := fun _ _ => Except.ok (some { status := "OK", duration := some 0 })

def rowC5a : Row := { emptyRow with
  worker := some "Chris"
  date := some "2026-01-05"
  address := some "12 Oak Ave"
  description := some "install faucet" }

def rowC5b : Row := { emptyRow with
  worker := some "Chris"
  date := some "2026-01-05"
  address := some "34 Elm Ave" }

/-- Two target rows, weights 2 and 1, no per-row hours. -/
def rowsC5 : List Row := [rowC5a, rowC5b]

def rowC2a : Row := { emptyRow with
  worker := some "Jose"
  date := some "2026-01-05"
  totalHours := some 4 }

def rowC2c : Row := { emptyRow with
  worker := some "Jose"
  date := some "2026-01-05"
  notes := some "third job" }

/-- Two fixed 4-hour rows and one target row. -/
def rowsC2 : List Row := [rowC2a, rowC2a, rowC2c]

def rowC3b : Row := { emptyRow with
  worker := some "Damian"
  date := some "2026-01-05"
  address := some "34 Elm Ave" }

/-- Two target rows (weights 2 and 1) for the zero-travel scenario. -/
def rowsC3 : List Row := [{ rowC5a with worker := some "Damian" }, rowC3b]

/-- An open entry with every mergeable field already set. -/
def entC8 : Entry :=
  { worker := some "Jose"
    date := some "2025-12-01"
    address := some "5 Elm St"
    start := some "08:00"
    endT := some "10:00"
    totalHours := none
    materials := some 5
    notes := "x " }

/-- A merge line carrying a date, an address, a time range and money. -/
def lineC8 : String := "12/02/25 7 Oak St 9:00-10:00 gas 12"

/-! ### Theorems -/

theorem jsRound_le (x : ℚ) : (jsRound x : ℚ) ≤ x + 1/2 :=
  Int.floor_le _

theorem jsRound_nonneg (x : ℚ) (hx : 0 ≤ x) : 0 ≤ jsRound x := by
  unfold jsRound
  exact Int.le_floor.mpr (by push_cast; linarith)

theorem jsRound_intCast (z : ℤ) : jsRound (z : ℚ) = z := by
  unfold jsRound
  rw [add_comm, Int.floor_add_int]
  norm_num

theorem round15_le (m : ℤ) : roundToNearestQuarterMinutes m ≤ m + 7 := by
  unfold roundToNearestQuarterMinutes
  have h := jsRound_le ((m : ℚ) / 15)
  have h2 : (jsRound ((m : ℚ) / 15) * 15 : ℚ) ≤ (m : ℚ) + 15/2 := by
    have := mul_le_mul_of_nonneg_right h (by norm_num : (0 : ℚ) ≤ 15)
    calc (jsRound ((m : ℚ) / 15) * 15 : ℚ) ≤ ((m : ℚ) / 15 + 1/2) * 15 := this
    _ = (m : ℚ) + 15/2 := by ring
  have h3 : jsRound ((m : ℚ) / 15) * 15 ≤ ⌊(m : ℚ) + 15/2⌋ :=
    Int.le_floor.mpr (by push_cast; linarith)
  have h4 : (⌊(m : ℚ) + 15/2⌋ : ℤ) = m + 7 := by
    rw [add_comm, Int.floor_add_int]
    have : ⌊(15/2 : ℚ)⌋ = 7 := by norm_num
    omega
  omega

theorem round15_nonneg (m : ℤ) (hm : 0 ≤ m) : 0 ≤ roundToNearestQuarterMinutes m := by
  unfold roundToNearestQuarterMinutes
  have : 0 ≤ jsRound ((m : ℚ) / 15) :=
    jsRound_nonneg _ (by positivity)
  omega

theorem round15_eq_zero (m : ℤ) (h0 : 0 ≤ m) (h7 : m ≤ 7) :
    roundToNearestQuarterMinutes m = 0 := by
  unfold roundToNearestQuarterMinutes
  have hz : jsRound ((m : ℚ) / 15) = 0 := by
    unfold jsRound
    rw [Int.floor_eq_zero_iff]
    constructor
    · have : (0 : ℚ) ≤ (m : ℚ) / 15 := by positivity
      linarith
    · have hm15 : (m : ℚ) ≤ 7 := by exact_mod_cast h7
      have : (m : ℚ) / 15 ≤ 7 / 15 := by linarith [div_le_div_of_nonneg_right (c := (15:ℚ)) hm15]
      nlinarith
  rw [hz]
  ring

theorem round15_ge (m : ℤ) : m - 7 ≤ roundToNearestQuarterMinutes m := by
  unfold roundToNearestQuarterMinutes jsRound
  have h1 : (m : ℚ) / 15 + 1/2 - 1 < (⌊(m : ℚ) / 15 + 1/2⌋ : ℚ) := Int.sub_one_lt_floor _
  have h3 : ((m - ⌊(m : ℚ) / 15 + 1/2⌋ * 15 : ℤ) : ℚ) < 8 := by push_cast; linarith
  have h4 : m - ⌊(m : ℚ) / 15 + 1/2⌋ * 15 < 8 := by exact_mod_cast h3
  omega

theorem round15_dvd (m : ℤ) : 15 ∣ roundToNearestQuarterMinutes m :=
  ⟨jsRound ((m : ℚ) / 15), by unfold roundToNearestQuarterMinutes; ring⟩

theorem round15_add_of_dvd (c t : ℤ) (hc : 15 ∣ c) :
    roundToNearestQuarterMinutes (c + t) = c + roundToNearestQuarterMinutes t := by
  obtain ⟨k, rfl⟩ := hc
  unfold roundToNearestQuarterMinutes jsRound
  have h1 : ((15 * k + t : ℤ) : ℚ) / 15 + 1/2 = (k : ℚ) + ((t : ℚ) / 15 + 1/2) := by
    push_cast; ring
  rw [h1, Int.floor_int_add]
  ring

theorem complexityWeight_ge_one (t : String) : 1 ≤ complexityWeight t :=
  Nat.le_add_right 1 _

theorem complexityWeight_le_eleven (t : String) : complexityWeight t ≤ 11 := by
  simp only [complexityWeight]
  have h := List.length_filter_le
    (fun kw => listContainsSub (jsLowerStr t.data) kw.data) complexityKeywords
  have h10 : complexityKeywords.length = 10 := rfl
  omega

/-- One target's quarter-rounded service minutes are at most its proportional
share of the available minutes plus half a quarter hour (the zero-share
fallback `round(A / n)` quarter-rounds to 0 because a zero share forces
`A < 5.5 n`). -/
theorem serv_bound (w W : ℕ) (A : ℤ) (n : ℕ)
    (hw1 : 1 ≤ w) (hwW : w ≤ W) (hWn : (W : ℤ) ≤ 11 * n) (hn : 1 ≤ n) (hA : 0 ≤ A) :
    (roundToNearestQuarterMinutes
        (if jsRound ((w : ℚ) / (W : ℚ) * (A : ℚ)) ≠ 0 then jsRound ((w : ℚ) / (W : ℚ) * (A : ℚ))
         else jsRound ((A : ℚ) / ((max 1 n : ℕ) : ℚ))) : ℚ)
      ≤ (w : ℚ) * (A : ℚ) / (W : ℚ) + 15/2 := by
  have hW0 : 0 < W := lt_of_lt_of_le hw1 hwW
  have hWq : (0 : ℚ) < (W : ℚ) := by exact_mod_cast hW0
  have hAq : (0 : ℚ) ≤ (A : ℚ) := by exact_mod_cast hA
  have hwq : (1 : ℚ) ≤ (w : ℚ) := by exact_mod_cast hw1
  have hx0 : (0 : ℚ) ≤ (w : ℚ) / (W : ℚ) * (A : ℚ) := by positivity
  by_cases hs : jsRound ((w : ℚ) / (W : ℚ) * (A : ℚ)) = 0
  · simp only [hs, ne_eq, not_true_eq_false, if_false, not_not]
    have hnq : (0 : ℚ) < (n : ℚ) := by exact_mod_cast hn
    have hx12 : (w : ℚ) / (W : ℚ) * (A : ℚ) < 1/2 := by
      unfold jsRound at hs
      rw [Int.floor_eq_zero_iff, Set.mem_Ico] at hs
      linarith [hs.2]
    have hwA : (w : ℚ) * (A : ℚ) < (W : ℚ) / 2 := by
      have e1 : (w : ℚ) / (W : ℚ) * (A : ℚ) * (W : ℚ) = (w : ℚ) * (A : ℚ) := by
        field_simp
      have h2 := mul_lt_mul_of_pos_right hx12 hWq
      rw [e1] at h2
      linarith
    have hAW : (A : ℚ) < (W : ℚ) / 2 := by
      have hAle : (A : ℚ) ≤ (w : ℚ) * (A : ℚ) := by nlinarith
      linarith
    have hmax : (max 1 n) = n := max_eq_right hn
    have hAn : (A : ℚ) / (n : ℚ) < 11 / 2 := by
      have hWn' : (W : ℚ) ≤ 11 * (n : ℚ) := by exact_mod_cast hWn
      rw [div_lt_iff₀ hnq]
      nlinarith
    have hfb0 : 0 ≤ jsRound ((A : ℚ) / ((max 1 n : ℕ) : ℚ)) := by
      apply jsRound_nonneg
      rw [hmax]
      positivity
    have hfb5 : jsRound ((A : ℚ) / ((max 1 n : ℕ) : ℚ)) ≤ 5 := by
      rw [hmax]
      unfold jsRound
      have h6 : (A : ℚ) / (n : ℚ) + 1/2 < 6 := by linarith
      have hlt : ⌊(A : ℚ) / (n : ℚ) + 1/2⌋ < 6 := Int.floor_lt.mpr (by push_cast; linarith)
      omega
    have hz := round15_eq_zero _ hfb0 (le_trans hfb5 (by norm_num))
    rw [hz]
    push_cast
    positivity
  · simp only [hs, ne_eq, not_false_eq_true, if_true]
    have h1 : (jsRound ((w : ℚ) / (W : ℚ) * (A : ℚ)) : ℚ) ≤ (w : ℚ) / (W : ℚ) * (A : ℚ) + 1/2 :=
      jsRound_le _
    have h2 : roundToNearestQuarterMinutes (jsRound ((w : ℚ) / (W : ℚ) * (A : ℚ)))
        ≤ jsRound ((w : ℚ) / (W : ℚ) * (A : ℚ)) + 7 := round15_le _
    have h2q : (roundToNearestQuarterMinutes (jsRound ((w : ℚ) / (W : ℚ) * (A : ℚ))) : ℚ)
        ≤ (jsRound ((w : ℚ) / (W : ℚ) * (A : ℚ)) : ℚ) + 7 := by exact_mod_cast h2
    have heq : (w : ℚ) / (W : ℚ) * (A : ℚ) = (w : ℚ) * (A : ℚ) / (W : ℚ) := by ring
    linarith [heq.le, heq.ge]

/-- Summed over the targets: at most the available minutes plus half a
quarter hour per target. -/
theorem servs_sum_le (ws : List ℕ) (W : ℕ) (A : ℤ) (n : ℕ)
    (hws : ∀ w ∈ ws, 1 ≤ w ∧ w ≤ W)
    (hWn : (W : ℤ) ≤ 11 * n) (hn : 1 ≤ n) (hA : 0 ≤ A) :
    ((ws.map (fun (w : ℕ) => (roundToNearestQuarterMinutes
        (if jsRound ((w : ℚ) / (W : ℚ) * (A : ℚ)) ≠ 0 then jsRound ((w : ℚ) / (W : ℚ) * (A : ℚ))
         else jsRound ((A : ℚ) / ((max 1 n : ℕ) : ℚ))) : ℚ))).sum)
      ≤ ((ws.sum : ℚ)) * (A : ℚ) / (W : ℚ) + (ws.length : ℚ) * (15/2) := by
  induction ws with
  | nil => simp
  | cons w t ih =>
      have hw := hws w (List.mem_cons_self w t)
      have h1 := serv_bound w W A n hw.1 hw.2 hWn hn hA
      have h2 := ih (fun u hu => hws u (List.mem_cons_of_mem _ hu))
      simp only [List.map_cons, List.sum_cons, List.length_cons]
      rw [Nat.cast_add, Nat.cast_succ]
      have hexp : ((w : ℚ) + (t.sum : ℚ)) * (A : ℚ) / (W : ℚ)
          = (w : ℚ) * (A : ℚ) / (W : ℚ) + (t.sum : ℚ) * (A : ℚ) / (W : ℚ) := by ring
      have hlen : ((t.length : ℚ) + 1) * (15/2) = (t.length : ℚ) * (15/2) + 15/2 := by ring
      linarith [h1, h2]

theorem totalTravel_nonneg (td : Option (List ℕ)) (n : ℕ) : 0 ≤ totalTravelOf td n := by
  unfold totalTravelOf
  match td with
  | none => positivity
  | some ds =>
      simp only []
      split
      · apply List.sum_nonneg
        intro x hx
        simp only [List.mem_map] at hx
        obtain ⟨y, _, hy⟩ := hx
        exact hy ▸ Int.ofNat_nonneg y
      · positivity

theorem availableMinutes_nonneg (td : Option (List ℕ)) (rows : List Row) (dt : ℚ) :
    0 ≤ availableMinutesOf td rows dt :=
  le_max_left 0 _

theorem sum_map_div {α : Type} (l : List α) (f : α → ℚ) (c : ℚ) :
    (l.map (fun x => f x / c)).sum = (l.map f).sum / c := by
  induction l with
  | nil => simp
  | cons a t ih => simp [ih, add_div]

theorem sumHours_append (a b : List Row) : sumHours (a ++ b) = sumHours a + sumHours b := by
  simp [sumHours]

theorem scheduleMinutes_durations (cur : ℤ) (l : List (ℤ × ℤ)) :
    (scheduleMinutes cur l).map (fun p => p.2 - p.1) = l.map Prod.fst := by
  induction l generalizing cur with
  | nil => rfl
  | cons a t ih =>
      simp only [scheduleMinutes, List.map_cons, add_sub_cancel_left]
      rw [ih]

theorem scheduleMinutes_length (cur : ℤ) (l : List (ℤ × ℤ)) :
    (scheduleMinutes cur l).length = l.length := by
  have h := congrArg List.length (scheduleMinutes_durations cur l)
  simpa using h

theorem sum_getD_quarter (l : List Row)
    (h : ∀ r ∈ l, ∀ q, r.totalHours = some q → ∃ k : ℕ, q = (k : ℚ) / 4) :
    ∃ j : ℕ, ((l.map (fun r => r.totalHours.getD 0)).sum) = (j : ℚ) / 4 := by
  induction l with
  | nil => exact ⟨0, by simp⟩
  | cons r t ih =>
      obtain ⟨j, hj⟩ := ih (fun u hu => h u (List.mem_cons_of_mem _ hu))
      have hr := h r (List.mem_cons_self r t)
      simp only [List.map_cons, List.sum_cons, hj]
      match hrr : r.totalHours with
      | none => exact ⟨j, by simp⟩
      | some q =>
          obtain ⟨k, hk⟩ := hr q hrr
          refine ⟨k + j, ?_⟩
          simp only [Option.getD_some, hk]
          push_cast
          ring

theorem knownSum_quarter (rows : List Row)
    (hq : ∀ r ∈ rows, ∀ q, r.totalHours = some q → ∃ k : ℕ, q = (k : ℚ) / 4) :
    ∃ j : ℕ, knownSumOf rows = (j : ℚ) / 4 :=
  sum_getD_quarter (fixedOf rows) (fun r hr => hq r (List.mem_of_mem_filter hr))

theorem servs_nonneg (td : Option (List ℕ)) (rows : List Row) (dt : ℚ) :
    ∀ s ∈ servsOf td rows dt, 0 ≤ s := by
  intro s hs
  unfold servsOf at hs
  simp only [List.mem_map] at hs
  obtain ⟨sh, hsh, hval⟩ := hs
  have hfb : 0 ≤ jsRound ((availableMinutesOf td rows dt : ℚ) / ((max 1 (targetsOf rows).length : ℕ) : ℚ)) := by
    apply jsRound_nonneg
    apply div_nonneg
    · exact_mod_cast availableMinutes_nonneg td rows dt
    · positivity
  have hsh0 : 0 ≤ sh := by
    unfold serviceSharesOf at hsh
    simp only [List.mem_map] at hsh
    obtain ⟨w, _, hw⟩ := hsh
    subst hw
    apply jsRound_nonneg
    apply mul_nonneg
    · apply div_nonneg <;> positivity
    · exact_mod_cast le_max_left 0 (availableMinutesOf td rows dt)
  subst hval
  split <;> assumption

theorem travels_nonneg (td : Option (List ℕ)) (n : ℕ) :
    ∀ t ∈ travelByTargetOf td n, 0 ≤ t := by
  intro t ht
  unfold travelByTargetOf at ht
  simp only [List.mem_map] at ht
  obtain ⟨i, _, hi⟩ := ht
  subst hi
  match td with
  | some ds => dsimp only; split <;> positivity
  | none => dsimp only; split <;> norm_num

/-- Both branches of a group's allocation: the emitted hours are at most the
fixed rows' sum plus the quarter-rounded service minutes of each target. -/
theorem sumHours_allocCore_le (td : Option (List ℕ)) (date : Option String)
    (rows : List Row) (dt : ℚ) :
    sumHours (allocCore td date rows dt) ≤ knownSumOf rows +
      ((servsOf td rows dt).map (fun s => (roundToNearestQuarterMinutes s : ℚ) / 60)).sum := by
  have hsum0 : 0 ≤ ((servsOf td rows dt).map (fun s => (roundToNearestQuarterMinutes s : ℚ) / 60)).sum := by
    apply List.sum_nonneg
    intro x hx
    simp only [List.mem_map] at hx
    obtain ⟨s, hs, hval⟩ := hx
    subst hval
    have h0 := servs_nonneg td rows dt s hs
    have := round15_nonneg s h0
    positivity
  have hfix : sumHours (fixedOf rows) = knownSumOf rows := rfl
  simp only [allocCore]
  split
  · rw [sumHours_append, hfix]
    have h2 : sumHours ((targetsOf rows).map (fun t =>
        { t with totalHours := none, start := some "NaN:NaN", endT := some "NaN:NaN" })) = 0 := by
      unfold sumHours
      rw [List.map_map]
      have e0 : ((fun r : Row => r.totalHours.getD 0) ∘ (fun t : Row =>
          { t with totalHours := none, start := some "NaN:NaN", endT := some "NaN:NaN" }))
          = fun _ : Row => (0 : ℚ) := funext fun t => rfl
      rw [e0]
      simp
    rw [h2]
    linarith
  · rename_i d0 heq
    rw [sumHours_append, hfix]
    have hlen1 : (servsOf td rows dt).length = (targetsOf rows).length := by
      unfold servsOf serviceSharesOf weightsOf
      simp
    have hlen2 : (travelByTargetOf td (targetsOf rows).length).length = (targetsOf rows).length := by
      unfold travelByTargetOf
      simp
    have hlenz : ((servsOf td rows dt).zip (travelByTargetOf td (targetsOf rows).length)).length
        = (targetsOf rows).length := by
      rw [List.length_zip, hlen1, hlen2, min_self]
    have hlen3 : (scheduleMinutes (roundToNearestQuarterMinutes d0)
        ((servsOf td rows dt).zip (travelByTargetOf td (targetsOf rows).length))).length
        = (targetsOf rows).length := by
      rw [scheduleMinutes_length, hlenz]
    have hchain : sumHours (((targetsOf rows).zip (scheduleMinutes (roundToNearestQuarterMinutes d0)
          ((servsOf td rows dt).zip (travelByTargetOf td (targetsOf rows).length)))).map
        (fun p => { p.1 with
          totalHours := some ((roundToNearestQuarterMinutes (p.2.2 - p.2.1) : ℚ) / 60)
          start := some (minutesToTimeStr p.2.1)
          endT := some (minutesToTimeStr p.2.2) }))
        = ((servsOf td rows dt).map (fun s => (roundToNearestQuarterMinutes s : ℚ) / 60)).sum := by
      unfold sumHours
      rw [List.map_map]
      have e1 : ((fun r : Row => r.totalHours.getD 0) ∘
          (fun p : Row × (ℤ × ℤ) => { p.1 with
            totalHours := some ((roundToNearestQuarterMinutes (p.2.2 - p.2.1) : ℚ) / 60)
            start := some (minutesToTimeStr p.2.1)
            endT := some (minutesToTimeStr p.2.2) }))
          = (fun q : ℤ × ℤ => (roundToNearestQuarterMinutes (q.2 - q.1) : ℚ) / 60) ∘ Prod.snd := by
        funext p
        rfl
      rw [e1, ← List.map_map, List.map_snd_zip _ _ (le_of_eq hlen3)]
      have e2 : (fun q : ℤ × ℤ => (roundToNearestQuarterMinutes (q.2 - q.1) : ℚ) / 60)
          = (fun m : ℤ => (roundToNearestQuarterMinutes m : ℚ) / 60) ∘ (fun q : ℤ × ℤ => q.2 - q.1) := by
        funext q
        rfl
      rw [e2, ← List.map_map, scheduleMinutes_durations,
        List.map_fst_zip _ _ (le_of_eq (hlen1.trans hlen2.symm))]
    rw [hchain]

/-- Travel lookup under a failing provider (or an absent key): `null`. -/
theorem getDurations_of_fail (fetch : Fetcher) (addrs : List String) (key : Option String)
    (h : ∀ o d, fetch o d = Except.error ()) :
    getDurationsBetweenAddresses fetch addrs key = none := by
  match addrs with
  | [] => simp [getDurationsBetweenAddresses]
  | [a] => simp [getDurationsBetweenAddresses]
  | a :: b :: t =>
      unfold getDurationsBetweenAddresses
      split
      · rfl
      · simp only [List.mapM_cons, List.mapM.loop, h]
        rfl

theorem fixAddress_fields (e : Entry) :
    (fixAddress e).start = e.start ∧ (fixAddress e).endT = e.endT ∧
      (fixAddress e).totalHours = e.totalHours := by
  unfold fixAddress
  split
  · split <;> exact ⟨rfl, rfl, rfl⟩
  · exact ⟨rfl, rfl, rfl⟩

theorem fixWeekdayDate_fields (today : ℤ) (e : Entry) :
    (fixWeekdayDate today e).start = e.start ∧ (fixWeekdayDate today e).endT = e.endT ∧
      (fixWeekdayDate today e).totalHours = e.totalHours := by
  unfold fixWeekdayDate
  split
  · split <;> exact ⟨rfl, rfl, rfl⟩
  · exact ⟨rfl, rfl, rfl⟩

theorem fixDefaultDate_fields (today : ℤ) (e : Entry) :
    (fixDefaultDate today e).start = e.start ∧ (fixDefaultDate today e).endT = e.endT ∧
      (fixDefaultDate today e).totalHours = e.totalHours := by
  unfold fixDefaultDate
  split <;> exact ⟨rfl, rfl, rfl⟩

theorem fixMaterials_fields (e : Entry) :
    (fixMaterials e).start = e.start ∧ (fixMaterials e).endT = e.endT ∧
      (fixMaterials e).totalHours = e.totalHours := by
  unfold fixMaterials
  split
  · split
    · split <;> exact ⟨rfl, rfl, rfl⟩
    · exact ⟨rfl, rfl, rfl⟩
  · exact ⟨rfl, rfl, rfl⟩

theorem mergeLine_totalHours (today : ℤ) (c : Entry) (line : String) :
    (mergeLine today c line).totalHours = c.totalHours := by
  unfold mergeLine
  rcases h : findTimes line with _ | t <;> simp only [h] <;> split_ifs <;> rfl

/-- During segmentation no entry ever carries `totalHours` (it is only
computed by the post-processing). -/
theorem processLine_inv (today : ℤ) (st : List Entry × Option Entry) (line : String)
    (h1 : ∀ x ∈ st.1, x.totalHours = none)
    (h2 : ∀ c, st.2 = some c → c.totalHours = none) :
    (∀ x ∈ (processLine today st line).1, x.totalHours = none) ∧
    (∀ c, (processLine today st line).2 = some c → c.totalHours = none) := by
  obtain ⟨es, cur⟩ := st
  simp only [processLine]
  split
  · -- the worker-with-colon branch starts a fresh entry and flushes `cur`
    refine ⟨fun x hx => ?_, fun c hc => ?_⟩
    · have hx' : x ∈ es ++ cur.toList := hx
      rcases List.mem_append.mp hx' with h | h
      · exact h1 x h
      · cases cur with
        | some c0 =>
            simp only [Option.toList_some, List.mem_singleton] at h
            exact h ▸ h2 c0 rfl
        | none => simp at h
    · have h4 : some (none : Option ℚ) = some c.totalHours :=
        congrArg (Option.map Entry.totalHours) hc
      injection h4 with h5
      exact h5.symm
  · -- no new block: open, skip, or merge
    split
    · -- `cur = none`
      split
      · -- a time range opens a fresh entry
        refine ⟨fun x hx => h1 x hx, fun c hc => ?_⟩
        have h4 : some (none : Option ℚ) = some c.totalHours :=
          congrArg (Option.map Entry.totalHours) hc
        injection h4 with h5
        exact h5.symm
      · split
        · -- a lone classifier opens a minimal entry
          refine ⟨fun x hx => h1 x hx, fun c hc => ?_⟩
          have h4 : some (none : Option ℚ) = some c.totalHours :=
            congrArg (Option.map Entry.totalHours) hc
          injection h4 with h5
          exact h5.symm
        · -- pure noise: the state is unchanged
          refine ⟨fun x hx => h1 x hx, fun c hc => ?_⟩
          have h4 : (none : Option Entry) = some c := hc
          exact Option.noConfusion h4
    · -- `cur = some c0`: merge
      rename_i c0
      refine ⟨fun x hx => h1 x hx, fun c hc => ?_⟩
      have h4 : some ((mergeLine today c0 line).totalHours) = some c.totalHours :=
        congrArg (Option.map Entry.totalHours) hc
      injection h4 with h5
      rw [← h5, mergeLine_totalHours]
      exact h2 c0 rfl

theorem foldl_inv (today : ℤ) (lines : List String) (st : List Entry × Option Entry)
    (h1 : ∀ x ∈ st.1, x.totalHours = none)
    (h2 : ∀ c, st.2 = some c → c.totalHours = none) :
    (∀ x ∈ (lines.foldl (processLine today) st).1, x.totalHours = none) ∧
    (∀ c, (lines.foldl (processLine today) st).2 = some c → c.totalHours = none) := by
  induction lines generalizing st with
  | nil => exact ⟨h1, h2⟩
  | cons l t ih =>
      simp only [List.foldl_cons]
      obtain ⟨g1, g2⟩ := processLine_inv today st l h1 h2
      exact ih _ g1 g2

theorem parseTimeToMinutes_ne_empty {t : String} {m : ℕ}
    (h : parseTimeToMinutes t = some m) : t ≠ "" := by
  intro he
  rw [he] at h
  exact Option.noConfusion h

theorem round2_quarter (M : ℤ) :
    (jsRound ((roundToNearestQuarterMinutes M : ℚ) / 60 * 100) : ℚ) / 100
      = (roundToNearestQuarterMinutes M : ℚ) / 60 := by
  unfold roundToNearestQuarterMinutes
  have h1 : ((jsRound ((M : ℚ) / 15) * 15 : ℤ) : ℚ) / 60 * 100
      = ((25 * jsRound ((M : ℚ) / 15) : ℤ) : ℚ) := by
    push_cast
    ring
  rw [h1, jsRound_intCast]
  push_cast
  ring

/-- C1 (amended): every parsed entry with both times set carries
`totalHours` equal to the quarter-rounded duration, computed as
`end - start` plus 24 h exactly when negative — which coincides with the
duration mod 24 h when both times are valid times of day (< 24:00). -/
theorem C1_totalHours_quarter_rounded (today : ℤ) (text : String) (e : Entry)
    (he : e ∈ parseTextToEntries today text) (s en : String)
    (hs : e.start = some s) (hen : e.endT = some en)
    (sm em : ℕ) (hsm : parseTimeToMinutes s = some sm) (hem : parseTimeToMinutes en = some em)
    (hsm24 : sm < 1440) (hem24 : em < 1440) :
    e.totalHours = some ((roundToNearestQuarterMinutes (Int.emod ((em : ℤ) - (sm : ℤ)) 1440) : ℚ) / 60) := by
  simp only [parseTextToEntries] at he
  obtain ⟨e0, he0, rfl⟩ := List.mem_map.mp he
  have hinv := foldl_inv today (((splitLines text).map jsTrim).filter (fun l => l ≠ ""))
    ([], none) (by simp) (by simp)
  have h0 : e0.totalHours = none := by
    rcases List.mem_append.mp he0 with h | h
    · exact hinv.1 e0 h
    · match hst : ((((splitLines text).map jsTrim).filter (fun l => l ≠ "")).foldl
          (processLine today) ([], none)).2 with
      | some c =>
          rw [hst] at h
          simp only [Option.toList_some, List.mem_singleton] at h
          exact h ▸ hinv.2 c hst
      | none =>
          rw [hst] at h
          simp at h
  -- the four field-preserving steps
  obtain ⟨ha1, ha2, ha3⟩ := fixAddress_fields e0
  obtain ⟨hb1, hb2, hb3⟩ := fixWeekdayDate_fields today (fixAddress e0)
  obtain ⟨hc1, hc2, hc3⟩ := fixDefaultDate_fields today (fixWeekdayDate today (fixAddress e0))
  obtain ⟨hd1, hd2, hd3⟩ := fixMaterials_fields
    (fixDefaultDate today (fixWeekdayDate today (fixAddress e0)))
  have he4s : (fixMaterials (fixDefaultDate today (fixWeekdayDate today (fixAddress e0)))).start
      = e0.start := by rw [hd1, hc1, hb1, ha1]
  have he4e : (fixMaterials (fixDefaultDate today (fixWeekdayDate today (fixAddress e0)))).endT
      = e0.endT := by rw [hd2, hc2, hb2, ha2]
  have he4h : (fixMaterials (fixDefaultDate today (fixWeekdayDate today (fixAddress e0)))).totalHours
      = none := by rw [hd3, hc3, hb3, ha3, h0]
  -- the start/end of the final entry are those of e0
  have hps : (postFix today e0).start = e0.start := by
    unfold postFix fixHours
    split <;> simpa using he4s
  have hpe : (postFix today e0).endT = e0.endT := by
    unfold postFix fixHours
    split <;> simpa using he4e
  have hes : e0.start = some s := by rw [← hps, hs]
  have hee : e0.endT = some en := by rw [← hpe, hen]
  have hsne : s ≠ "" := parseTimeToMinutes_ne_empty hsm
  have hene : en ≠ "" := parseTimeToMinutes_ne_empty hem
  -- fixHours fires
  have hcond : (¬ qTruthy (fixMaterials (fixDefaultDate today (fixWeekdayDate today
      (fixAddress e0)))).totalHours ∧
      sTruthy (fixMaterials (fixDefaultDate today (fixWeekdayDate today (fixAddress e0)))).start ∧
      sTruthy (fixMaterials (fixDefaultDate today (fixWeekdayDate today (fixAddress e0)))).endT) := by
    refine ⟨?_, ?_, ?_⟩
    · rw [he4h]; simp [qTruthy]
    · rw [he4s, hes]; simp [sTruthy, hsne]
    · rw [he4e, hee]; simp [sTruthy, hene]
  have hval : (postFix today e0).totalHours = some (computeHoursFromTimes s en) := by
    unfold postFix fixHours
    rw [if_pos hcond]
    have hgs : (fixMaterials (fixDefaultDate today (fixWeekdayDate today
        (fixAddress e0)))).start.getD "" = s := by rw [he4s, hes]; rfl
    have hge : (fixMaterials (fixDefaultDate today (fixWeekdayDate today
        (fixAddress e0)))).endT.getD "" = en := by rw [he4e, hee]; rfl
    rw [hgs, hge]
  rw [hval]
  -- arithmetic: the single wrap equals mod 24 h for times below 24:00
  unfold computeHoursFromTimes
  rw [hsm, hem]
  have hmod : (if ((em : ℤ) - (sm : ℤ)) < 0 then ((em : ℤ) - (sm : ℤ)) + 24 * 60
      else ((em : ℤ) - (sm : ℤ))) = Int.emod ((em : ℤ) - (sm : ℤ)) 1440 := by
    have h1 : (sm : ℤ) < 1440 := by exact_mod_cast hsm24
    have h2 : (em : ℤ) < 1440 := by exact_mod_cast hem24
    have h3 : (0 : ℤ) ≤ (sm : ℤ) := Int.ofNat_nonneg sm
    have h4 : (0 : ℤ) ≤ (em : ℤ) := Int.ofNat_nonneg em
    have h5 : Int.emod ((em : ℤ) - (sm : ℤ)) 1440 = ((em : ℤ) - (sm : ℤ)) % 1440 := rfl
    rw [h5]
    split <;> omega
  simp only [hmod]
  rw [round2_quarter]

/-- C1 witness: a 9:00–17:30 entry gets 8.5 hours (510 minutes mod 24 h,
rounded to the quarter hour). -/
theorem C1_totalHours_witness :
    ∃ e ∈ parseTextToEntries 20449 "9:00-17:30 fixed sink",
      e.start = some "09:00" ∧ e.endT = some "17:30" ∧
      e.totalHours = some ((roundToNearestQuarterMinutes (Int.emod ((1050 : ℤ) - (540 : ℤ)) 1440) : ℚ) / 60) := by
  have hmem : ∃ e, parseTextToEntries 20449 "9:00-17:30 fixed sink" = [e] ∧
      e.start = some "09:00" ∧ e.endT = some "17:30" := by
    refine ⟨(parseTextToEntries 20449 "9:00-17:30 fixed sink").head (by decide), by decide, by decide, by decide⟩
  obtain ⟨e, hl, hs, hen⟩ := hmem
  refine ⟨e, by rw [hl]; exact List.mem_singleton.mpr rfl, hs, hen, ?_⟩
  exact C1_totalHours_quarter_rounded 20449 "9:00-17:30 fixed sink" e
    (by rw [hl]; exact List.mem_singleton.mpr rfl) "09:00" "17:30" hs hen
    540 1050 (by decide) (by decide) (by decide) (by decide)

/-- C2 (amended): for every allocation group with quarter-quantized hours the
emitted hours sum to at most `max(day-total, fixed-sum)` plus one eighth of an
hour per target row. -/
theorem C2_group_hours_bound (td : Option (List ℕ)) (date : Option String)
    (rows : List Row) (dayTotal : ℚ)
    (hq : ∀ r ∈ rows, ∀ q, r.totalHours = some q → ∃ k : ℕ, q = (k : ℚ) / 4)
    (hdt : ∃ k : ℕ, dayTotal = (k : ℚ) / 4) :
    sumHours (allocCore td date rows dayTotal) ≤
      max dayTotal (knownSumOf rows) + ((targetsOf rows).length : ℚ) * (1/8) := by
  obtain ⟨kdt, hkdt⟩ := hdt
  obtain ⟨j, hj⟩ := knownSum_quarter rows hq
  have hmain := sumHours_allocCore_le td date rows dayTotal
  have hA0 : 0 ≤ availableMinutesOf td rows dayTotal := availableMinutes_nonneg td rows dayTotal
  have hksmax : knownSumOf rows ≤ max dayTotal (knownSumOf rows) := le_max_right _ _
  by_cases hn0 : (targetsOf rows).length = 0
  · have hwnil : weightsOf rows = [] := by
      have hl : (weightsOf rows).length = 0 := by
        unfold weightsOf
        simp [hn0]
      exact List.eq_nil_of_length_eq_zero hl
    have hsnil : servsOf td rows dayTotal = [] := by
      unfold servsOf serviceSharesOf
      rw [hwnil]
      rfl
    rw [hsnil] at hmain
    simp only [List.map_nil, List.sum_nil, add_zero] at hmain
    have : (0:ℚ) ≤ ((targetsOf rows).length : ℚ) * (1/8) := by positivity
    linarith
  · have hn1 : 1 ≤ (targetsOf rows).length := Nat.one_le_iff_ne_zero.mpr hn0
    have hwlen : (weightsOf rows).length = (targetsOf rows).length := by
      unfold weightsOf
      simp
    have hwpos : ∀ w ∈ weightsOf rows, 1 ≤ w := by
      intro w hw
      unfold weightsOf at hw
      simp only [List.mem_map] at hw
      obtain ⟨t, _, hval⟩ := hw
      exact hval ▸ complexityWeight_ge_one _
    have hw11 : ∀ w ∈ weightsOf rows, w ≤ 11 := by
      intro w hw
      unfold weightsOf at hw
      simp only [List.mem_map] at hw
      obtain ⟨t, _, hval⟩ := hw
      exact hval ▸ complexityWeight_le_eleven _
    have hsum_ge : (targetsOf rows).length ≤ (weightsOf rows).sum := by
      have h := List.card_nsmul_le_sum (weightsOf rows) 1 hwpos
      rw [smul_eq_mul, mul_one, hwlen] at h
      exact h
    have hsum_ne : (weightsOf rows).sum ≠ 0 := by omega
    have hWdef : weightSumOf rows = (weightsOf rows).sum := by
      unfold weightSumOf
      rw [if_pos hsum_ne]
    have hwle : ∀ w ∈ weightsOf rows, w ≤ weightSumOf rows := by
      intro w hw
      rw [hWdef]
      exact List.le_sum_of_mem hw
    have hWn : ((weightSumOf rows : ℕ) : ℤ) ≤ 11 * (targetsOf rows).length := by
      rw [hWdef]
      have h := List.sum_le_card_nsmul (weightsOf rows) 11 hw11
      rw [smul_eq_mul, hwlen] at h
      have h2 : (weightsOf rows).sum ≤ 11 * (targetsOf rows).length := by omega
      exact_mod_cast h2
    have hWq0 : ((weightSumOf rows : ℕ) : ℚ) ≠ 0 := by
      rw [hWdef]
      exact_mod_cast hsum_ne
    have hmaxA : max 0 (availableMinutesOf td rows dayTotal) = availableMinutesOf td rows dayTotal :=
      max_eq_right hA0
    have hserv_eq : servsOf td rows dayTotal = (weightsOf rows).map (fun (w : ℕ) =>
        if jsRound ((w : ℚ) / (weightSumOf rows : ℚ) * ((availableMinutesOf td rows dayTotal : ℤ) : ℚ)) ≠ 0
        then jsRound ((w : ℚ) / (weightSumOf rows : ℚ) * ((availableMinutesOf td rows dayTotal : ℤ) : ℚ))
        else jsRound (((availableMinutesOf td rows dayTotal : ℤ) : ℚ) / ((max 1 (targetsOf rows).length : ℕ) : ℚ))) := by
      unfold servsOf serviceSharesOf
      simp only [List.map_map, hmaxA]
      rfl
    have hlemma := servs_sum_le (weightsOf rows) (weightSumOf rows)
      (availableMinutesOf td rows dayTotal) (targetsOf rows).length
      (fun w hw => ⟨hwpos w hw, hwle w hw⟩) hWn hn1 hA0
    have hdiv : ((servsOf td rows dayTotal).map
        (fun s => (roundToNearestQuarterMinutes s : ℚ) / 60)).sum
        = ((servsOf td rows dayTotal).map
            (fun s => (roundToNearestQuarterMinutes s : ℚ))).sum / 60 :=
      sum_map_div _ _ 60
    have hmm : ((servsOf td rows dayTotal).map (fun s => (roundToNearestQuarterMinutes s : ℚ))).sum
        ≤ ((weightsOf rows).sum : ℚ) * (availableMinutesOf td rows dayTotal : ℚ) / (weightSumOf rows : ℚ)
          + ((weightsOf rows).length : ℚ) * (15/2) := by
      rw [hserv_eq, List.map_map]
      exact hlemma
    have hWA : ((weightsOf rows).sum : ℚ) * (availableMinutesOf td rows dayTotal : ℚ) / (weightSumOf rows : ℚ)
        = (availableMinutesOf td rows dayTotal : ℚ) := by
      rw [hWdef]
      exact mul_div_cancel_left₀ _ (by exact_mod_cast hsum_ne)
    -- availableMinutes ≤ remainder in minutes
    have hM : ∃ M : ℤ, 0 ≤ M ∧ remainderOf dayTotal rows * 60 = ((15 * M : ℤ) : ℚ) := by
      refine ⟨max 0 ((kdt : ℤ) - (j : ℤ)), le_max_left _ _, ?_⟩
      unfold remainderOf
      rw [hkdt, hj]
      rcases le_total ((kdt : ℚ) / 4 - (j : ℚ) / 4) 0 with hle | hle
      · have hn : (kdt : ℕ) ≤ j := by
          have hq0 : (kdt : ℚ) ≤ (j : ℚ) := by linarith
          exact_mod_cast hq0
        have hz : (kdt : ℤ) - (j : ℤ) ≤ 0 := by omega
        rw [max_eq_left hle, max_eq_left hz]
        norm_num
      · have hn : (j : ℕ) ≤ kdt := by
          have hq0 : (j : ℚ) ≤ (kdt : ℚ) := by linarith
          exact_mod_cast hq0
        have hz : (0 : ℤ) ≤ (kdt : ℤ) - (j : ℤ) := by omega
        rw [max_eq_right hle, max_eq_right hz]
        push_cast
        ring
    obtain ⟨M, hM0, hMly⟩ := hM
    have hArem : (availableMinutesOf td rows dayTotal : ℚ) ≤ remainderOf dayTotal rows * 60 := by
      have hTnn := totalTravel_nonneg td (targetsOf rows).length
      have hjr : jsRound (remainderOf dayTotal rows * 60) = 15 * M := by
        rw [hMly, jsRound_intCast]
      have hAZ : availableMinutesOf td rows dayTotal ≤ 15 * M := by
        unfold availableMinutesOf
        rw [hjr]
        omega
      rw [hMly]
      exact_mod_cast hAZ
    have hrem_ks : knownSumOf rows + remainderOf dayTotal rows = max dayTotal (knownSumOf rows) := by
      unfold remainderOf
      rcases le_total dayTotal (knownSumOf rows) with hle | hle
      · rw [max_eq_left (by linarith), max_eq_right hle]
        ring
      · rw [max_eq_right (by linarith), max_eq_left hle]
        ring
    rw [hwlen] at hmm
    rw [hdiv] at hmain
    have hfinal : ((servsOf td rows dayTotal).map
        (fun s => (roundToNearestQuarterMinutes s : ℚ))).sum / 60
        ≤ remainderOf dayTotal rows + ((targetsOf rows).length : ℚ) * (1/8) := by
      rw [hWA] at hmm
      linarith [hmm, hArem]
    linarith [hmain, hfinal, hrem_ks.le, hrem_ks.ge]

/-- C2 witness: the bound instantiated at the concrete two-target group with
day-total 8. -/
theorem C2_group_hours_witness :
    sumHours (allocCore none (some "2026-01-05") rowsC5 8) ≤
      max 8 (knownSumOf rowsC5) + ((targetsOf rowsC5).length : ℚ) * (1/8) := by
  refine C2_group_hours_bound none (some "2026-01-05") rowsC5 8 ?_ ⟨32, by norm_num⟩
  intro r hr q hqq
  fin_cases hr <;> exact Option.noConfusion hqq

/-- C9: with a failing travel-time provider the allocator behaves exactly as
with no credential supplied. -/
theorem C9_provider_failure_fallback (entries : List Row) (k : String) (fetch : Fetcher)
    (h : ∀ o d, fetch o d = Except.error ()) :
    allocateTimesAcrossAddresses fetch entries (some k) =
      allocateTimesAcrossAddresses fetch entries none := by
  unfold allocateTimesAcrossAddresses
  congr 1
  apply List.map_congr_left
  intro g _
  unfold allocGroupRows
  rw [getDurations_of_fail fetch _ _ h, getDurations_of_fail fetch _ _ h]

/-- C9 witness: the fallback equality at a concrete two-stop group. -/
theorem C9_provider_failure_witness :
    (∀ o d, failFetch o d = Except.error ()) ∧
    allocateTimesAcrossAddresses failFetch rowsC3 (some "key") =
      allocateTimesAcrossAddresses failFetch rowsC3 none :=
  ⟨fun _ _ => rfl, C9_provider_failure_fallback rowsC3 "key" failFetch (fun _ _ => rfl)⟩

/-- C4: on any weekend date, 8 hours pay 360.00 for Chris (rate 30, premium
1.5×) and 160.00 for Myer (rate 20, no multiplier). -/
theorem C4_weekend_pay (d tz : String) (h : isWeekend (some d) tz = true) :
    computePayForRow { emptyRow with worker := some "Chris", date := some d, totalHours := some 8 } tz = 360 ∧
    computePayForRow { emptyRow with worker := some "Myer", date := some d, totalHours := some 8 } tz = 160 := by
  constructor <;>
  · simp only [computePayForRow, emptyRow, h]
    decide

/-- C4 witness: 2025-12-27 is a Saturday. -/
theorem C4_weekend_pay_witness :
    isWeekend (some "2025-12-27") "America/New_York" = true ∧
    computePayForRow { emptyRow with worker := some "Chris", date := some "2025-12-27", totalHours := some 8 }
      "America/New_York" = 360 ∧
    computePayForRow { emptyRow with worker := some "Myer", date := some "2025-12-27", totalHours := some 8 }
      "America/New_York" = 160 :=
  ⟨by decide, C4_weekend_pay "2025-12-27" "America/New_York" (by decide)⟩

/-- C10: an absent, empty or unparseable date is treated as non-weekend and
pay is hours times rate, rounded to cents, with no multiplier and no failure. -/
theorem C10_bad_date_pay (row : Row) (tz : String)
    (h : row.date = none ∨ row.date = some "" ∨ ∃ s, row.date = some s ∧ parseIsoDate s = none) :
    isWeekend row.date tz = false ∧
    computePayForRow row tz =
      (jsRound (row.totalHours.getD 0 * rateLookup (row.worker.getD "") * 100) : ℚ) / 100 := by
  have hw : isWeekend row.date tz = false := by
    rcases h with h | h | ⟨s, hs, hp⟩
    · rw [h]; rfl
    · rw [h]; rfl
    · rw [hs]; unfold isWeekend
      by_cases he : s = ""
      · simp [he]
      · simp [he, hp]
  refine ⟨hw, ?_⟩
  simp only [computePayForRow, hw, if_false, Bool.false_eq_true]

/-- C10 witness: a row with an unparseable date. -/
theorem C10_bad_date_pay_witness :
    (parseIsoDate "not-a-date" = none) ∧
    isWeekend (some "not-a-date") "America/New_York" = false ∧
    computePayForRow { emptyRow with worker := some "Jose", date := some "not-a-date", totalHours := some 2 }
      "America/New_York" =
      (jsRound ((2 : ℚ) * rateLookup "Jose" * 100) : ℚ) / 100 := by
  refine ⟨by decide, ?_, ?_⟩
  · exact (C10_bad_date_pay
      { emptyRow with worker := some "Jose", date := some "not-a-date", totalHours := some 2 }
      "America/New_York" (Or.inr (Or.inr ⟨"not-a-date", rfl, by decide⟩))).1
  · exact (C10_bad_date_pay
      { emptyRow with worker := some "Jose", date := some "not-a-date", totalHours := some 2 }
      "America/New_York" (Or.inr (Or.inr ⟨"not-a-date", rfl, by decide⟩))).2

/-- C5: the two-target example group: the day-total is the 8-hour default,
no provider is configured, the weights are 2 and 1,
`available_minutes = 480 - 15 = 465` and the shares round to 310 and 155. -/
theorem C5_two_target_shares :
    dayTotalFirst rowsC5 = none ∧
    getDurationsBetweenAddresses failFetch (addressesOf rowsC5) none = none ∧
    allocGroupRows failFetch none (some "2026-01-05") rowsC5 = allocCore none (some "2026-01-05") rowsC5 8 ∧
    weightsOf rowsC5 = [2, 1] ∧
    availableMinutesOf none rowsC5 8 = 465 ∧
    serviceSharesOf none rowsC5 8 = [310, 155] := by
  decide

/-- C1 counterexample: on the line `99:00-1:00` the parser stores the times
`99:00` and `01:00` (5940 and 60 minutes) and computes `totalHours = -74`,
while the duration mod 24 h rounded to the quarter hour is 22 hours. -/
theorem C1_cx_wrapped_duration :
    (parseTextToEntries 20449 "99:00-1:00").map (fun e => (e.start, e.endT, e.totalHours))
      = [(some "99:00", some "01:00", some (-74))] ∧
    parseTimeToMinutes "99:00" = some 5940 ∧
    parseTimeToMinutes "01:00" = some 60 ∧
    (roundToNearestQuarterMinutes (Int.emod ((60 : ℤ) - 5940) 1440) : ℚ) / 60 = 22 ∧
    ((-74 : ℚ) ≠ 22) := by
  decide

/-- C2 counterexample: two fixed 4-hour rows and one target row form one
group whose day-total is 4 (the single distinct stated value), yet the output
hours sum to 8 > 4 + 0.25. -/
theorem C2_cx_fixed_exceed :
    (buildGroups rowsC2).length = 1 ∧
    dayTotalFirst rowsC2 = some 4 ∧
    sumHours (allocateTimesAcrossAddresses failFetch rowsC2 none) = 8 ∧
    ¬ ((8 : ℚ) ≤ 4 + 1/4) := by
  decide

theorem pick_some {β α : Type} (l : List β) (f : β → Option α) (a : α)
    (h : pick l f = some a) : ∃ b ∈ l, f b = some a := by
  induction l with
  | nil => exact Option.noConfusion h
  | cons b r ih =>
      rw [pick] at h
      cases hfb : f b with
      | some x =>
          simp only [hfb] at h
          exact ⟨b, List.mem_cons_self _ _, hfb.trans h⟩
      | none =>
          simp only [hfb] at h
          obtain ⟨b2, hb2, hfb2⟩ := ih h
          exact ⟨b2, List.mem_cons_of_mem _ hb2, hfb2⟩

theorem scanFrom_some {α : Type} (step : Option Char → List Char → Option α) :
    ∀ (prev : Option Char) (l : List Char) (a : α),
      scanFrom step prev l = some a →
      ∃ n pr, n ≤ l.length ∧ step pr (l.drop n) = some a := by
  intro prev l
  induction l generalizing prev with
  | nil => intro a h; exact ⟨0, prev, Nat.le_refl _, h⟩
  | cons c rest ih =>
      intro a h
      rw [scanFrom] at h
      cases hs : step prev (c :: rest) with
      | some x =>
          simp only [hs] at h
          exact ⟨0, prev, Nat.zero_le _, hs.trans h⟩
      | none =>
          simp only [hs] at h
          obtain ⟨n, pr, hn, hstep⟩ := ih (some c) a h
          exact ⟨n + 1, pr, Nat.succ_le_succ hn, hstep⟩

theorem numTok_chars (s : List Char) (c : List Char) (v : ℚ) (r : List Char)
    (h : numTok s = some (c, v, r)) : ∀ ch ∈ c, ch ≠ ':' := by
  have hdig : ∀ ch ∈ s.takeWhile jsIsDigit, ch ≠ ':' := by
    intro ch hch
    have := List.mem_takeWhile_imp hch
    intro he
    rw [he] at this
    exact absurd this (by decide)
  simp only [numTok, takeRun] at h
  split at h
  · exact Option.noConfusion h
  · split at h
    · rename_i r2 heq
      split at h
      · simp only [Option.some.injEq, Prod.mk.injEq] at h
        rw [← h.1]
        exact hdig
      · simp only [Option.some.injEq, Prod.mk.injEq] at h
        rw [← h.1]
        intro ch hch
        rcases List.mem_append.mp hch with hch1 | hch1
        · rcases List.mem_append.mp hch1 with hch2 | hch2
          · exact hdig ch hch2
          · rw [List.mem_singleton.mp hch2]; decide
        · have hm := List.mem_of_mem_take hch1
          have := List.mem_takeWhile_imp hm
          intro he
          rw [he] at this
          exact absurd this (by decide)
    · simp only [Option.some.injEq, Prod.mk.injEq] at h
      rw [← h.1]
      exact hdig

theorem isBareHMM_eq_false (cand : List Char) (h : ∀ ch ∈ cand, ch ≠ ':') :
    isBareHMM cand = false := by
  unfold isBareHMM
  split
  · exact absurd rfl (h ':' (by simp))
  · exact absurd rfl (h ':' (by simp))
  · rfl

theorem keywordMoneyStep_cand (prev : Option Char) (s : List Char) (cand : List Char) (v : ℚ)
    (h : keywordMoneyStep prev s = some (cand, v)) : ∀ ch ∈ cand, ch ≠ ':' := by
  unfold keywordMoneyStep at h
  obtain ⟨kw, hkw, hstep⟩ := pick_some _ _ _ h
  cases hci : ciMatchAt kw.data s with
  | none =>
      simp only [hci] at hstep
      exact Option.noConfusion hstep
  | some r1 =>
      simp only [hci] at hstep
      rw [Option.map_eq_some'] at hstep
      obtain ⟨t, hnum, hpair⟩ := hstep
      obtain ⟨tc, tv, tr⟩ := t
      simp only [Prod.mk.injEq] at hpair
      rw [← hpair.1]
      exact numTok_chars _ _ _ _ hnum

theorem findMoneyKeyword_present (line : String) (cand : List Char) (v : ℚ)
    (h : findMoneyKeyword line = some (cand, v)) :
    ∃ kw ∈ moneyKeywords, ∃ n, (ciMatchAt kw.data (line.data.drop n)).isSome = true := by
  unfold findMoneyKeyword at h
  obtain ⟨n, pr, hn, hstep⟩ := scanFrom_some _ _ _ _ h
  unfold keywordMoneyStep at hstep
  obtain ⟨kw, hkw, hs⟩ := pick_some _ _ _ hstep
  refine ⟨kw, hkw, n, ?_⟩
  cases hci : ciMatchAt kw.data (line.data.drop n) with
  | none =>
      simp only [hci] at hs
      exact Option.noConfusion hs
  | some r1 => simp [hci]

theorem lookup_val_mem {α β : Type} [BEq α] (k : α) (l : List (α × β)) (v : β)
    (h : List.lookup k l = some v) : v ∈ l.map Prod.snd := by
  induction l with
  | nil => exact Option.noConfusion h
  | cons p r ih =>
      obtain ⟨pk, pv⟩ := p
      simp only [List.lookup] at h
      split at h
      · simp only [Option.some.injEq] at h
        subst h
        exact List.mem_cons_self _ _
      · exact List.mem_cons_of_mem _ (ih h)

theorem WEEKDAYS_lookup_le (k : String) (t : ℕ)
    (h : List.lookup k WEEKDAYS = some t) : t ≤ 6 := by
  have hm := lookup_val_mem k WEEKDAYS t h
  fin_cases hm <;> omega

/-- C6: a weekday name accepted by `isoForWeekday` resolves (via its 3-letter
key in `WEEKDAYS`) to the most recent occurrence of that weekday on or before
the processing date — never a future date; and a line containing only
`Saturday` takes the weekday branch of `findDate` and resolves to the most
recent Saturday on or before today. -/
theorem C6_weekday_resolution (today : ℤ) :
    (∀ name r, isoForWeekdayDay today name = some r →
      r ≤ today ∧ today < r + 7 ∧
      ∃ t, List.lookup (String.mk ((jsLowerStr name.data).take 3)) WEEKDAYS = some t ∧
        weekdayOfDay r = (t : ℤ)) ∧
    findDate today "Saturday" = isoForWeekday today "saturday" ∧
    ∃ r, isoForWeekdayDay today "saturday" = some r ∧ weekdayOfDay r = 6 ∧
      r ≤ today ∧ today < r + 7 := by
  have hA : ∀ name r, isoForWeekdayDay today name = some r →
      r ≤ today ∧ today < r + 7 ∧
      ∃ t, List.lookup (String.mk ((jsLowerStr name.data).take 3)) WEEKDAYS = some t ∧
        weekdayOfDay r = (t : ℤ) := by
    intro name r h
    simp only [isoForWeekdayDay] at h
    split at h
    · exact Option.noConfusion h
    · rename_i target heq
      have hr := Option.some.inj h
      subst hr
      have ht6 : (target : ℤ) ≤ 6 := by exact_mod_cast WEEKDAYS_lookup_le _ _ heq
      have ht0 : (0 : ℤ) ≤ (target : ℤ) := Int.ofNat_nonneg _
      have e2 : ∀ x : ℤ, weekdayOfDay x = (x + 4) % 7 := fun _ => rfl
      have hwd0 : 0 ≤ weekdayOfDay today := by rw [e2]; omega
      have hwd7 : weekdayOfDay today < 7 := by rw [e2]; omega
      refine ⟨?_, ?_, target, heq, ?_⟩
      · split <;> omega
      · split <;> omega
      · simp only [e2]
        split <;> omega
  have h1 : scanFrom m1Step none ("Saturday" : String).data = none := by decide
  have h2 : scanFrom m2Step none ("Saturday" : String).data = none := by decide
  have h3 : scanFrom wdStep none ("Saturday" : String).data = some "saturday" := by decide
  have hfd : findDate today "Saturday" = isoForWeekday today "saturday" := by
    simp only [findDate, h1, h2, h3]
  have hlook : List.lookup (String.mk ((jsLowerStr ("saturday" : String).data).take 3)) WEEKDAYS
      = some 6 := by decide
  obtain ⟨hle, hlt, t, hlk, hwdr⟩ := hA "saturday" _ rfl
  rw [hlook] at hlk
  have ht : t = 6 := (Option.some.inj hlk).symm
  subst ht
  exact ⟨hA, hfd, _, rfl, hwdr, hle, hlt⟩

/-- C6 witness: at processing date 20449 (Saturday 2025-12-27), `monday`
resolves to 20444 (the Monday five days earlier) and `Saturday` takes the
weekday branch of `findDate`. -/
theorem C6_weekday_resolution_witness :
    isoForWeekdayDay 20449 "monday" = some 20444 ∧
    ((20444 : ℤ) ≤ 20449 ∧ (20449 : ℤ) < 20444 + 7 ∧
      ∃ t, List.lookup (String.mk ((jsLowerStr ("monday" : String).data).take 3)) WEEKDAYS
          = some t ∧ weekdayOfDay 20444 = (t : ℤ)) ∧
    findDate 20449 "Saturday" = isoForWeekday 20449 "saturday" := by
  have h := C6_weekday_resolution 20449
  exact ⟨by decide, h.1 "monday" 20444 (by decide), h.2.1⟩

/-- C8: a line without the worker-and-colon header merges into the open entry
without flushing it; already-set (truthy) date, address, start/end and
materials fields are left unchanged, and the whole line text is appended to
`notes` after the optional helper note, with a separating space. -/
theorem C8_merge_first_writer (today : ℤ) (es : List Entry) (c : Entry) (line : String)
    (hnw : ¬ ((findWorker line).isSome ∧ line.data.contains ':')) :
    processLine today (es, some c) line = (es, some (mergeLine today c line)) ∧
    (sTruthy c.date → (mergeLine today c line).date = c.date) ∧
    (sTruthy c.address → (mergeLine today c line).address = c.address) ∧
    (sTruthy c.start → (mergeLine today c line).start = c.start ∧
      (mergeLine today c line).endT = c.endT) ∧
    (qTruthy c.materials → (mergeLine today c line).materials = c.materials) ∧
    (∃ mid, (mergeLine today c line).notes = c.notes ++ mid ++ line ++ " ") := by
  refine ⟨?_, ?_, ?_, ?_, ?_, ?_⟩
  · simp only [processLine]
    rw [if_neg hnw]
  · intro h
    unfold mergeLine
    rcases ht : findTimes line with _ | t <;> simp only [ht] <;> split_ifs <;>
      first | rfl | simp_all
  · intro h
    unfold mergeLine
    rcases ht : findTimes line with _ | t <;> simp only [ht] <;> split_ifs <;>
      first | rfl | simp_all
  · intro h
    unfold mergeLine
    rcases ht : findTimes line with _ | t <;> simp only [ht] <;> split_ifs <;>
      exact ⟨rfl, rfl⟩
  · intro h
    unfold mergeLine
    rcases ht : findTimes line with _ | t <;> simp only [ht] <;> split_ifs <;>
      first | rfl | simp_all
  · refine ⟨if qTruthy (findHelperHours line) then
        "helper " ++ jsNumToString ((findHelperHours line).getD 0) ++ "hrs. " else "", ?_⟩
    unfold mergeLine
    rcases ht : findTimes line with _ | t <;> simp only [ht] <;> split_ifs <;> rfl

/-- C8 witness: a fully-set open entry absorbs a line that carries a date, an
address, a time range and money without changing any of those fields. -/
theorem C8_merge_witness :
    processLine 20449 ([], some entC8) lineC8 = ([], some (mergeLine 20449 entC8 lineC8)) ∧
    (mergeLine 20449 entC8 lineC8).date = entC8.date ∧
    (mergeLine 20449 entC8 lineC8).address = entC8.address ∧
    ((mergeLine 20449 entC8 lineC8).start = entC8.start ∧
      (mergeLine 20449 entC8 lineC8).endT = entC8.endT) ∧
    (mergeLine 20449 entC8 lineC8).materials = entC8.materials ∧
    ∃ mid, (mergeLine 20449 entC8 lineC8).notes = entC8.notes ++ mid ++ lineC8 ++ " " := by
  have h := C8_merge_first_writer 20449 [] entC8 lineC8 (by decide)
  exact ⟨h.1, h.2.1 (by decide), h.2.2.1 (by decide), h.2.2.2.1 (by decide),
    h.2.2.2.2.1 (by decide), h.2.2.2.2.2⟩

/-- C7 (amended): `findMoney` prefers a dollar-prefixed amount; with no
dollar match it returns only the keyword-scoped capture, whose keyword list
also includes the singular `material`; the captured amount token never
contains a colon, so it is never a bare `H:MM` time token. -/
theorem C7_money_preference (line : String) :
    (∀ v, findMoneyDollar line = some v → findMoney line = some v) ∧
    (findMoneyDollar line = none →
      ∀ v, findMoney line = some v →
        ∃ cand, findMoneyKeyword line = some (cand, v) ∧
          (∀ ch ∈ cand, ch ≠ ':') ∧ isBareHMM cand = false ∧
          ∃ kw ∈ moneyKeywords, ∃ n, (ciMatchAt kw.data (line.data.drop n)).isSome = true) := by
  constructor
  · intro v hv
    unfold findMoney
    rw [hv]
  · intro hnone v hv
    unfold findMoney at hv
    rw [hnone] at hv
    cases hk : findMoneyKeyword line with
    | none =>
        simp only [hk] at hv
        exact Option.noConfusion hv
    | some p =>
        obtain ⟨cand, v0⟩ := p
        simp only [hk] at hv
        have hnc : ∀ ch ∈ cand, ch ≠ ':' := by
          have hk2 := hk
          unfold findMoneyKeyword at hk2
          obtain ⟨n, pr, hn, hstep⟩ := scanFrom_some _ _ _ _ hk2
          exact keywordMoneyStep_cand _ _ _ _ hstep
        have hbf : isBareHMM cand = false := isBareHMM_eq_false _ hnc
        rw [hbf] at hv
        simp only [Bool.not_false, if_true, Option.some.injEq] at hv
        subst hv
        exact ⟨cand, rfl, hnc, hbf, findMoneyKeyword_present line cand v0 hk⟩

/-- C7 witness: `$12.50` beats the keyword branch; `gas 40` is keyword-scoped. -/
theorem C7_money_witness :
    findMoneyDollar "lunch $12.50 gas 40" = some (25/2) ∧
    findMoney "lunch $12.50 gas 40" = some (25/2) ∧
    findMoneyDollar "gas 40" = none ∧
    findMoney "gas 40" = some 40 ∧
    ∃ cand, findMoneyKeyword "gas 40" = some (cand, 40) ∧
      (∀ ch ∈ cand, ch ≠ ':') ∧ isBareHMM cand = false ∧
      ∃ kw ∈ moneyKeywords, ∃ n, (ciMatchAt kw.data (("gas 40" : String).data.drop n)).isSome = true := by
  refine ⟨by decide, (C7_money_preference "lunch $12.50 gas 40").1 (25/2) (by decide),
    by decide, by decide, (C7_money_preference "gas 40").2 (by decide) 40 (by decide)⟩

/-- C7 counterexample to the seven-keyword list: `material 20` is matched by
the source's singular `material` alternative and returns 20, though the line
has no dollar sign and contains none of `gas`, `materials`, `helper`, `paid`,
`cost`, `charge`, `fee`. -/
theorem C7_cx_material :
    findMoney "material 20" = some 20 ∧
    findMoneyDollar "material 20" = none ∧
    (∀ kw ∈ (["gas", "materials", "helper", "paid", "cost", "charge", "fee"] : List String),
      listContainsSub (jsLowerStr ("material 20" : String).data) kw.data = false) := by
  decide

theorem scheduleMinutes_start_mono (cur : ℤ) (l : List (ℤ × ℤ))
    (hc : 15 ∣ cur) (hnn : ∀ p ∈ l, 0 ≤ p.1 ∧ 0 ≤ p.2) :
    List.Chain' (fun a b => a.1 ≤ b.1) (scheduleMinutes cur l) := by
  induction l generalizing cur with
  | nil => simp [scheduleMinutes]
  | cons p rest ih =>
      obtain ⟨serv, travel⟩ := p
      have hp := hnn (serv, travel) (List.mem_cons_self _ _)
      have hrest : ∀ q ∈ rest, 0 ≤ q.1 ∧ 0 ≤ q.2 :=
        fun q hq => hnn q (List.mem_cons_of_mem _ hq)
      have htail := ih (roundToNearestQuarterMinutes (cur + serv + travel)) (round15_dvd _) hrest
      simp only [scheduleMinutes]
      rw [List.chain'_cons']
      refine ⟨?_, htail⟩
      intro b hb
      cases rest with
      | nil => simp [scheduleMinutes] at hb
      | cons q r2 =>
          simp only [scheduleMinutes, List.head?_cons, Option.mem_def, Option.some_inj] at hb
          have hstep : cur ≤ roundToNearestQuarterMinutes (cur + serv + travel) := by
            have heq : roundToNearestQuarterMinutes (cur + serv + travel)
                = cur + roundToNearestQuarterMinutes (serv + travel) := by
              rw [show cur + serv + travel = cur + (serv + travel) by ring,
                round15_add_of_dvd _ _ hc]
            have hnn2 := round15_nonneg (serv + travel) (by omega)
            omega
          rw [← hb]
          exact hstep

theorem scheduleMinutes_end_le_start (cur : ℤ) (l : List (ℤ × ℤ))
    (hc : 15 ∣ cur) (htr : ∀ p ∈ l.dropLast, 7 ≤ p.2) :
    List.Chain' (fun a b => a.2 ≤ b.1) (scheduleMinutes cur l) := by
  induction l generalizing cur with
  | nil => simp [scheduleMinutes]
  | cons p rest ih =>
      obtain ⟨serv, travel⟩ := p
      cases rest with
      | nil => simp [scheduleMinutes]
      | cons q r2 =>
          have hdl : ((serv, travel) :: q :: r2).dropLast
              = (serv, travel) :: (q :: r2).dropLast := rfl
          have hp : 7 ≤ travel := htr (serv, travel) (by rw [hdl]; exact List.mem_cons_self _ _)
          have hrest : ∀ p2 ∈ (q :: r2).dropLast, 7 ≤ p2.2 :=
            fun p2 hp2 => htr p2 (by rw [hdl]; exact List.mem_cons_of_mem _ hp2)
          have htail := ih (roundToNearestQuarterMinutes (cur + serv + travel)) (round15_dvd _) hrest
          simp only [scheduleMinutes]
          rw [List.chain'_cons']
          refine ⟨?_, htail⟩
          intro b hb
          simp only [scheduleMinutes, List.head?_cons, Option.mem_def, Option.some_inj] at hb
          have hstep : cur + serv ≤ roundToNearestQuarterMinutes (cur + serv + travel) := by
            have heq : roundToNearestQuarterMinutes (cur + serv + travel)
                = cur + roundToNearestQuarterMinutes (serv + travel) := by
              rw [show cur + serv + travel = cur + (serv + travel) by ring,
                round15_add_of_dvd _ _ hc]
            have hge := round15_ge (serv + travel)
            omega
          rw [← hb]
          exact hstep

/-- C3 (amended): within every allocation group the assigned start minutes of
the target rows are non-decreasing in processing order; and whenever every
travel duration used by the group is at least 7 minutes (in particular with
the default flat 15-minute buffer) each target starts no earlier than the
previous target ends. -/
theorem C3_schedule_order (td : Option (List ℕ)) (rows : List Row) (dt : ℚ) (d0 : ℤ) :
    List.Chain' (fun a b => a.1 ≤ b.1)
      (scheduleMinutes (roundToNearestQuarterMinutes d0)
        ((servsOf td rows dt).zip (travelByTargetOf td (targetsOf rows).length))) ∧
    ((∀ p ∈ ((servsOf td rows dt).zip (travelByTargetOf td (targetsOf rows).length)).dropLast,
        (7 : ℤ) ≤ p.2) →
      List.Chain' (fun a b => a.2 ≤ b.1)
        (scheduleMinutes (roundToNearestQuarterMinutes d0)
          ((servsOf td rows dt).zip (travelByTargetOf td (targetsOf rows).length)))) := by
  constructor
  · apply scheduleMinutes_start_mono _ _ (round15_dvd d0)
    intro p hp
    obtain ⟨a, b⟩ := p
    have hm := List.of_mem_zip hp
    exact ⟨servs_nonneg td rows dt a hm.1, travels_nonneg td _ b hm.2⟩
  · intro h7
    exact scheduleMinutes_end_le_start _ _ (round15_dvd d0) h7

/-- C3 witness: the concrete two-target group with the default 15-minute
travel buffer. -/
theorem C3_schedule_order_witness :
    (∀ p ∈ ((servsOf none rowsC5 8).zip
        (travelByTargetOf none (targetsOf rowsC5).length)).dropLast, (7 : ℤ) ≤ p.2) ∧
    List.Chain' (fun a b => a.1 ≤ b.1)
      (scheduleMinutes (roundToNearestQuarterMinutes 480)
        ((servsOf none rowsC5 8).zip (travelByTargetOf none (targetsOf rowsC5).length))) ∧
    List.Chain' (fun a b => a.2 ≤ b.1)
      (scheduleMinutes (roundToNearestQuarterMinutes 480)
        ((servsOf none rowsC5 8).zip (travelByTargetOf none (targetsOf rowsC5).length))) := by
  have h7 : ∀ p ∈ ((servsOf none rowsC5 8).zip
      (travelByTargetOf none (targetsOf rowsC5).length)).dropLast, (7 : ℤ) ≤ p.2 := by decide
  exact ⟨h7, (C3_schedule_order none rowsC5 8 480).1, (C3_schedule_order none rowsC5 8 480).2 h7⟩

/-- C3 counterexample: with a provider reporting zero travel, the second
target starts at 13:15, before the first target's end 13:20. -/
theorem C3_cx_zero_travel :
    (allocateTimesAcrossAddresses zeroFetch rowsC3 (some "key")).map (fun r => (r.start, r.endT))
      = [(some "08:00", some "13:20"), (some "13:15", some "15:55")] ∧
    parseTimeToMinutes "13:15" = some 795 ∧
    parseTimeToMinutes "13:20" = some 800 ∧
    (795 : ℕ) < 800 := by
  decide

end Timesheet
